import Mathlib

/-!
Verification of `osm_to_lanelet2.py`: conversion of OSM highway centerlines to
Lanelet2 lanelets.  The pipeline is shallowly embedded over an arbitrary
`LinearOrderedField α` standing for exact real arithmetic; the three
transcendental ingredients of the source (`math.sqrt` inside `math.hypot`,
`math.pi`, `math.cos`) are passed as parameters `sqrt : α → α`, `piA : α`,
`cosF : α → α`, so that structural theorems hold for every interpretation and
numeric theorems can instantiate them with `Real.sqrt`, `Real.pi`, `Real.cos`.
All container and string manipulations mirror the Python source:
dictionaries keyed by strings become association lists in insertion order,
`dict.get` with a default becomes `tagGet`, and the three monotonically
decreasing id counters are threaded through an explicit output state.
-/

namespace OsmLanelet

/-- Lookup in a Python dict built from a `(k, v)` tag list by
`{t.get('k'): t.get('v') for t in ...}`: later duplicates overwrite, a missing
key yields the default (models `get_tags(elem)` followed by `.get(k, dflt)`). -/
def tagGet (tags : List (String × String)) (k dflt : String) : String :=
  match (tags.filter (fun p => p.1 == k)).getLast? with
  | some p => p.2
  | none => dflt

/-- Whether the tag dict has the key at all (`k in tags`). -/
def tagHas (tags : List (String × String)) (k : String) : Bool :=
  (tags.filter (fun p => p.1 == k)) ≠ []

/-- An input OSM node: id, latitude, longitude. -/
structure InNode (α : Type) where
  id : String
  lat : α
  lon : α
deriving Repr, DecidableEq

/-- An input OSM way: id, ordered node references, tag list. -/
structure InWay where
  id : String
  nds : List String
  tags : List (String × String)
deriving Repr, DecidableEq

/-- An input OSM document: optional `(minlat, minlon, maxlat, maxlon)` bounds,
nodes and ways in document order. -/
structure InDoc (α : Type) where
  bounds : Option (α × α × α × α)
  nodes : List (InNode α)
  ways : List InWay
deriving Repr, DecidableEq

/-- `osm_nodes[r]`: the node index is a dict filled in document order, so a
duplicate id resolves to the last occurrence. -/
def findNode {α : Type} (nodes : List (InNode α)) (r : String) : Option (InNode α) :=
  nodes.reverse.find? (fun n => n.id == r)

/-- `HALF_WIDTHS`: half-width in metres from road centerline to each lane
boundary, per highway category; `none` for categories absent from the source
dict.  The float literals of the source are exact rationals. -/
def HALF_WIDTHS : String → Option ℚ
  | "motorway" => some (15 / 4)
  | "motorway_link" => some (7 / 2)
  | "trunk" => some (7 / 2)
  | "trunk_link" => some (13 / 4)
  | "primary" => some (13 / 4)
  | "primary_link" => some 3
  | "secondary" => some 3
  | "secondary_link" => some (11 / 4)
  | "tertiary" => some 3
  | "tertiary_link" => some (11 / 4)
  | "residential" => some (11 / 4)
  | "living_street" => some (5 / 2)
  | "service" => some (5 / 2)
  | "unclassified" => some 3
  | "road" => some 3
  | "footway" => some (3 / 2)
  | "cycleway" => some (3 / 2)
  | "path" => some (3 / 2)
  | "pedestrian" => some 2
  | "steps" => some 1
  | _ => none

/-- `DEFAULT_SPEED`: default speed string per category. -/
def DEFAULT_SPEED : String → Option String
  | "motorway" => some "130"
  | "trunk" => some "100"
  | "primary" => some "90"
  | "secondary" => some "70"
  | "tertiary" => some "50"
  | "residential" => some "30"
  | "service" => some "20"
  | "living_street" => some "10"
  | "unclassified" => some "50"
  | "road" => some "50"
  | _ => none

/-- `VEHICLE_ROADS` membership. -/
def VEHICLE_ROADS (s : String) : Bool :=
  ["motorway", "motorway_link", "trunk", "trunk_link",
   "primary", "primary_link", "secondary", "secondary_link",
   "tertiary", "tertiary_link", "residential", "living_street",
   "service", "unclassified", "road"].contains s

/-- `latlon_to_xy`: equirectangular projection to local metres,
`x = (lon - olon)·(π/180)·R·cos(radians(olat))`, `y = (lat - olat)·(π/180)·R`
with `R = 6371000`.  `piA` stands for `math.pi` and `cosF` for `math.cos`;
`radians(z) = z·π/180`. -/
def latlon_to_xy {α : Type} [LinearOrderedField α] (piA : α) (cosF : α → α)
    (lat lon olat olon : α) : α × α :=
  ((lon - olon) * piA / 180 * 6371000 * cosF (olat * piA / 180),
   (lat - olat) * piA / 180 * 6371000)

/-- `xy_to_latlon`: the inverse projection of the source,
`lat = olat + (y/R)·(180/π)`, `lon = olon + (x/(R·cos(radians(olat))))·(180/π)`. -/
def xy_to_latlon {α : Type} [LinearOrderedField α] (piA : α) (cosF : α → α)
    (x y olat olon : α) : α × α :=
  (olat + y / 6371000 * (180 / piA),
   olon + x / (6371000 * cosF (olat * piA / 180)) * (180 / piA))

/-- `normalize(dx, dy)`: `d = hypot(dx,dy) = sqrt(dx²+dy²)`; the unit vector
`(dx/d, dy/d)` when `d > 1e-10`, else the fallback `(0, 1)`. -/
def normalize {α : Type} [LinearOrderedField α] (sqrt : α → α) (dx dy : α) : α × α :=
  if 1 / 10 ^ 10 < sqrt (dx ^ 2 + dy ^ 2) then
    (dx / sqrt (dx ^ 2 + dy ^ 2), dy / sqrt (dx ^ 2 + dy ^ 2))
  else (0, 1)

/-- `left_perp(dx, dy)`: unit vector 90° to the left of the travel direction. -/
def left_perp {α : Type} [LinearOrderedField α] (sqrt : α → α) (dx dy : α) : α × α :=
  normalize sqrt (-dy) dx

/-- The unit directions of the segments adjacent to position `i` of an
`n`-point coordinate list: the incoming segment when `i > 0` and the outgoing
segment when `i < n - 1`. -/
def dirsAt {α : Type} [LinearOrderedField α] (sqrt : α → α)
    (xs : List (α × α)) (n i : Nat) : List (α × α) :=
  (if 0 < i then
     [normalize sqrt ((xs.getD i (0, 0)).1 - (xs.getD (i - 1) (0, 0)).1)
                     ((xs.getD i (0, 0)).2 - (xs.getD (i - 1) (0, 0)).2)]
   else []) ++
  (if i + 1 < n then
     [normalize sqrt ((xs.getD (i + 1) (0, 0)).1 - (xs.getD i (0, 0)).1)
                     ((xs.getD (i + 1) (0, 0)).2 - (xs.getD i (0, 0)).2)]
   else [])

/-- The averaged, re-normalized direction of the gathered segment directions
(`sum(...)/len(dirs)` per component, then `normalize`). -/
def avgDir {α : Type} [LinearOrderedField α] (sqrt : α → α) (dirs : List (α × α)) : α × α :=
  normalize sqrt ((dirs.map Prod.fst).sum / (dirs.length : α))
                 ((dirs.map Prod.snd).sum / (dirs.length : α))

/-- The smoothed left perpendicular at position `i`: average the directions of
the adjacent segments, re-normalize, rotate left.  `none` when no adjacent
segment exists (only possible for a singleton list), where the source divides
`sum(...)` by `len(dirs) = 0` and raises `ZeroDivisionError`. -/
def perpAt {α : Type} [LinearOrderedField α] (sqrt : α → α)
    (xs : List (α × α)) (n i : Nat) : Option (α × α) :=
  if (dirsAt sqrt xs n i).length = 0 then none
  else some (left_perp sqrt (avgDir sqrt (dirsAt sqrt xs n i)).1
                            (avgDir sqrt (dirsAt sqrt xs n i)).2)

/-- Collect a list of `Option`s into an `Option` list ( `none` as soon as one
entry is `none`, mirroring an uncaught exception aborting the loop). -/
def allSome {β : Type} : List (Option β) → Option (List β)
  | [] => some []
  | none :: _ => none
  | some b :: rest =>
    match allSome rest with
    | some bs => some (b :: bs)
    | none => none

/-- `compute_perps(xy_coords)`: one smoothed left-normal per input position. -/
def compute_perps {α : Type} [LinearOrderedField α] (sqrt : α → α)
    (xs : List (α × α)) : Option (List (α × α)) :=
  allSome ((List.range xs.length).map (fun i => perpAt sqrt xs xs.length i))

/-- A synthesized output node (the serializer's 8-decimal formatting and the
constant `visible`/`ele` attributes are external presentation). -/
structure OutNode (α : Type) where
  nid : Int
  lat : α
  lon : α
deriving Repr, DecidableEq

/-- A synthesized output way: id, ordered output-node ids, tag list. -/
structure OutWay where
  wid : Int
  refs : List Int
  tags : List (String × String)
deriving Repr, DecidableEq

/-- A synthesized output relation: id, `(type, ref, role)` members, tag list. -/
structure OutRel where
  rid : Int
  members : List (String × Int × String)
  tags : List (String × String)
deriving Repr, DecidableEq

/-- The output document under construction: echoed bounds, entities in document
order, and the three independent monotonically decreasing id counters
(`_nid`, `_wid`, `_rid`, each starting at `-1`). -/
structure OutDoc (α : Type) where
  obounds : Option (α × α × α × α)
  nodes : List (OutNode α)
  ways : List OutWay
  rels : List OutRel
  nextN : Int
  nextW : Int
  nextR : Int
deriving Repr, DecidableEq

/-- The empty output state with fresh counters. -/
def emptyOut {α : Type} : OutDoc α :=
  ⟨none, [], [], [], -1, -1, -1⟩

/-- `add_node(lat, lon)`: emit a node under the next node id and decrement. -/
def add_node {α : Type} (st : OutDoc α) (lat lon : α) : Int × OutDoc α :=
  (st.nextN, { st with nodes := st.nodes ++ [⟨st.nextN, lat, lon⟩], nextN := st.nextN - 1 })

/-- `add_way(node_ids, tags)`. -/
def add_way {α : Type} (st : OutDoc α) (refs : List Int) (tags : List (String × String)) :
    Int × OutDoc α :=
  (st.nextW, { st with ways := st.ways ++ [⟨st.nextW, refs, tags⟩], nextW := st.nextW - 1 })

/-- `add_relation(members, tags)`. -/
def add_relation {α : Type} (st : OutDoc α) (members : List (String × Int × String))
    (tags : List (String × String)) : Int × OutDoc α :=
  (st.nextR, { st with rels := st.rels ++ [⟨st.nextR, members, tags⟩], nextR := st.nextR - 1 })

/-- A collected highway way (the string-level fields of the `highway_ways`
record before the geometric phase-1 fields are added). -/
structure HWay where
  id : String
  highway : String
  refs : List String
  oneway : Bool
  speed : String
  name : String
deriving Repr, DecidableEq

/-- Collection of a single `way` element: `None` when the `highway` tag is not
a `HALF_WIDTHS` key or fewer than 2 node references resolve in the node index. -/
def collectOne {α : Type} (nodes : List (InNode α)) (w : InWay) : Option HWay :=
  let tags := w.tags
  let hw := tagGet tags "highway" ""
  if (HALF_WIDTHS hw).isSome = false then none
  else
    let refs := w.nds.filter (fun r => (findNode nodes r).isSome)
    if refs.length < 2 then none
    else some
      { id := w.id
        highway := hw
        refs := refs
        oneway := ["yes", "1", "true"].contains (tagGet tags "oneway" "no")
        speed := tagGet tags "maxspeed" ((DEFAULT_SPEED hw).getD "50")
        name := tagGet tags "name" "" }

/-- `highway_ways`: the eligible ways in document order. -/
def collectWays {α : Type} (doc : InDoc α) : List HWay :=
  doc.ways.filterMap (collectOne doc.nodes)

/-- The map origin: midpoint of the declared bounds, else the first node's
coordinate; `none` models the crash when neither exists. -/
def origin? {α : Type} [LinearOrderedField α] (doc : InDoc α) : Option (α × α) :=
  match doc.bounds with
  | some (mnla, mnlo, mxla, mxlo) => some ((mnla + mxla) / 2, (mnlo + mxlo) / 2)
  | none =>
    match doc.nodes.head? with
    | some n => some (n.lat, n.lon)
    | none => none

/-- Planar coordinates of the indexed source node `r` (`osm_nodes[r][2:4]`);
the `(0, 0)` branch is unreachable for the references kept by `collectOne`. -/
def nodeXY {α : Type} [LinearOrderedField α] (piA : α) (cosF : α → α)
    (nodes : List (InNode α)) (o : α × α) (r : String) : α × α :=
  match findNode nodes r with
  | some nd => latlon_to_xy piA cosF nd.lat nd.lon o.1 o.2
  | none => (0, 0)

/-- A way after phase 1: planar coordinates, per-node perpendiculars and the
category half-width (`hw['xy']`, `hw['perps']`, `hw['half_w']`). -/
structure PWay (α : Type) where
  way : HWay
  xy : List (α × α)
  perps : List (α × α)
  half_w : α
deriving Repr, DecidableEq

/-- Phase 1 for one way.  `compute_perps` always succeeds here because
`collectOne` guarantees at least 2 references, so the `getD []` default is
unreachable. -/
def enrich {α : Type} [LinearOrderedField α] (sqrt : α → α) (piA : α) (cosF : α → α)
    (nodes : List (InNode α)) (o : α × α) (w : HWay) : PWay α :=
  let xy := w.refs.map (nodeXY piA cosF nodes o)
  { way := w
    xy := xy
    perps := (compute_perps sqrt xy).getD []
    half_w := ((HALF_WIDTHS w.highway).getD 0 : ℚ) }

/-- All collected ways after phase 1. -/
def enrichedWays {α : Type} [LinearOrderedField α] (sqrt : α → α) (piA : α) (cosF : α → α)
    (doc : InDoc α) (o : α × α) : List (PWay α) :=
  (collectWays doc).map (enrich sqrt piA cosF doc.nodes o)

/-- Append a contribution to a `defaultdict(list)` keyed by source-node id,
preserving dict insertion order. -/
def addInfo {α : Type} (m : List (String × List (α × α × α))) (k : String)
    (v : α × α × α) : List (String × List (α × α × α)) :=
  match m with
  | [] => [(k, [v])]
  | (k', vs) :: rest => if k' = k then (k', vs ++ [v]) :: rest else (k', vs) :: addInfo rest k v

/-- Phase-2 contributions of one way: its `(perp, half_w)` at positions `0` and
`len(refs) - 1` (the Python loop `for pos in (0, len(refs)-1)` runs both
positions even when they hold the same source-node id). -/
def wayEndpoints {α : Type} [LinearOrderedField α] (pw : PWay α)
    (m : List (String × List (α × α × α))) :
    List (String × List (α × α × α)) :=
  let refs := pw.way.refs
  [0, refs.length - 1].foldl
    (fun m pos =>
      addInfo m (refs.getD pos "")
        ((pw.perps.getD pos (0, 0)).1, (pw.perps.getD pos (0, 0)).2, pw.half_w)) m

/-- `endpoint_info`: contributions of all ways, grouped by source-node id. -/
def endpointInfo {α : Type} [LinearOrderedField α] (pws : List (PWay α)) :
    List (String × List (α × α × α)) :=
  pws.foldl (fun m pw => wayEndpoints pw m) []

/-- Lookup in the endpoint-contribution dict. -/
def lookupInfos {α : Type} (m : List (String × List (α × α × α))) (r : String) :
    Option (List (α × α × α)) :=
  (m.find? (fun p => p.1 == r)).map (fun p => p.2)

/-- Number of endpoint contributions recorded for a source-node id. -/
def cnt {α : Type} (m : List (String × List (α × α × α))) (r : String) : Nat :=
  ((lookupInfos m r).getD []).length

/-- One shared `(left, centre, right)` output-node-id triple. -/
structure Triple where
  left : Int
  centre : Int
  right : Int
deriving Repr, DecidableEq

/-- The side argument of `boundary_node` (the source passes the string
literals `'left'`, `'right'` and anything else means centre). -/
inductive Side where
  | left
  | centre
  | right
deriving Repr, DecidableEq

/-- Select one id of a shared triple. -/
def Triple.get (t : Triple) : Side → Int
  | .left => t.left
  | .centre => t.centre
  | .right => t.right

/-- Merged offset direction of a junction: `normalize` of the arithmetic mean
of the contributing perpendiculars (`avg_px`, `avg_py` then `normalize`). -/
def mergedDir {α : Type} [LinearOrderedField α] (sqrt : α → α)
    (infos : List (α × α × α)) : α × α :=
  normalize sqrt ((infos.map (fun i => i.1)).sum / (infos.length : α))
                 ((infos.map (fun i => i.2.1)).sum / (infos.length : α))

/-- Merged half-width of a junction: arithmetic mean of the contributions. -/
def mergedHW {α : Type} [LinearOrderedField α] (infos : List (α × α × α)) : α :=
  (infos.map (fun i => i.2.2)).sum / (infos.length : α)

/-- Latitude/longitude of the shared left node of a junction: the centre point
offset by the merged direction times the merged half-width. -/
def sharedLeftPos {α : Type} [LinearOrderedField α] (sqrt : α → α) (piA : α) (cosF : α → α)
    (o : α × α) (nxy : String → α × α) (r : String) (infos : List (α × α × α)) : α × α :=
  xy_to_latlon piA cosF ((nxy r).1 + (mergedDir sqrt infos).1 * mergedHW infos)
    ((nxy r).2 + (mergedDir sqrt infos).2 * mergedHW infos) o.1 o.2

/-- Latitude/longitude of the shared centre node of a junction. -/
def sharedCentrePos {α : Type} [LinearOrderedField α] (piA : α) (cosF : α → α)
    (o : α × α) (nxy : String → α × α) (r : String) : α × α :=
  xy_to_latlon piA cosF (nxy r).1 (nxy r).2 o.1 o.2

/-- Latitude/longitude of the shared right node of a junction. -/
def sharedRightPos {α : Type} [LinearOrderedField α] (sqrt : α → α) (piA : α) (cosF : α → α)
    (o : α × α) (nxy : String → α × α) (r : String) (infos : List (α × α × α)) : α × α :=
  xy_to_latlon piA cosF ((nxy r).1 - (mergedDir sqrt infos).1 * mergedHW infos)
    ((nxy r).2 - (mergedDir sqrt infos).2 * mergedHW infos) o.1 o.2

/-- Phase 4: walk `endpoint_info` in insertion order and, for every id with 2+
contributions, materialize one shared left/centre/right node triple keyed by
that id. -/
def mkShared {α : Type} [LinearOrderedField α] (sqrt : α → α) (piA : α) (cosF : α → α)
    (o : α × α) (nxy : String → α × α) :
    List (String × List (α × α × α)) → OutDoc α → List (String × Triple) × OutDoc α
  | [], st => ([], st)
  | (r, infos) :: rest, st =>
    if infos.length < 2 then mkShared sqrt piA cosF o nxy rest st
    else
      let pl := add_node st (sharedLeftPos sqrt piA cosF o nxy r infos).1
                            (sharedLeftPos sqrt piA cosF o nxy r infos).2
      let pc := add_node pl.2 (sharedCentrePos piA cosF o nxy r).1
                              (sharedCentrePos piA cosF o nxy r).2
      let pr := add_node pc.2 (sharedRightPos sqrt piA cosF o nxy r infos).1
                              (sharedRightPos sqrt piA cosF o nxy r infos).2
      let rest' := mkShared sqrt piA cosF o nxy rest pr.2
      ((r, ⟨pl.1, pc.1, pr.1⟩) :: rest'.1, rest'.2)

/-- Lookup in the shared-triple dict (`osm_ref in shared` / `shared[osm_ref]`). -/
def lookupTriple (shared : List (String × Triple)) (r : String) : Option Triple :=
  (shared.find? (fun p => p.1 == r)).map (fun p => p.2)

/-- The character set of the source's `rstrip(' mph km/h')` argument. -/
def SUFFIX_CHARS : List Char :=
  [' ', 'm', 'p', 'h', 'k', '/']

/-- Python `s.rstrip(cs)`: drop trailing characters belonging to the set. -/
def rstripSet (s : String) (cs : List Char) : String :=
  ⟨(s.toList.reverse.dropWhile (fun c => cs.contains c)).reverse⟩

/-- Python `s.isdigit()` for the ASCII strings at play: nonempty and all
decimal digits. -/
def isdigitStr (s : String) : Bool :=
  !s.toList.isEmpty && s.toList.all Char.isDigit

/-- The speed string emitted on a lanelet relation: the way's recorded speed
value if it is numeric once unit-suffix characters are stripped (note the
original, unstripped string is kept), else the category default, else `"50"`. -/
def speedEmit (w : HWay) : String :=
  if isdigitStr (rstripSet w.speed SUFFIX_CHARS) then w.speed
  else (DEFAULT_SPEED w.highway).getD "50"

/-- The tag list of every lanelet relation emitted for a way (`rel_tags`,
including the trailing `name` when the source way had a nonempty one). -/
def relTags (w : HWay) : List (String × String) :=
  let is_vehicle := VEHICLE_ROADS w.highway
  [("type", "lanelet"),
   ("subtype", if is_vehicle then "road" else "walkway"),
   ("speed_limit", speedEmit w),
   ("location", "urban"),
   ("participant:vehicle", if is_vehicle then "yes" else "no"),
   ("participant:pedestrian", if is_vehicle then "no" else "yes")] ++
  (if w.name ≠ "" then [("name", w.name)] else [])

/-- `solid_tags` of a way (`dashed` subtype for non-vehicle categories). -/
def solidTags (w : HWay) : List (String × String) :=
  [("type", "line_thin"), ("subtype", if VEHICLE_ROADS w.highway then "solid" else "dashed")]

/-- `dashed_tags`. -/
def dashedTags : List (String × String) :=
  [("type", "line_thin"), ("subtype", "dashed")]

/-- `boundary_node(i, side)`: the Lanelet2 node id for way position `i`; the
pre-materialized shared id when `i` is an endpoint whose source-node id is a
junction, else a fresh node offset by `±perp·half_w` (centre: the point
itself). -/
def boundary_node {α : Type} [LinearOrderedField α] (piA : α) (cosF : α → α)
    (o : α × α) (shared : List (String × Triple)) (pw : PWay α) (i : Nat)
    (side : Side) (st : OutDoc α) : Int × OutDoc α :=
  if (i = 0 ∨ i = pw.way.refs.length - 1) ∧
      (lookupTriple shared (pw.way.refs.getD i "")).isSome then
    (((lookupTriple shared (pw.way.refs.getD i "")).getD ⟨0, 0, 0⟩).get side, st)
  else
    match side with
    | .left =>
      add_node st
        (xy_to_latlon piA cosF
          ((pw.xy.getD i (0, 0)).1 + (pw.perps.getD i (0, 0)).1 * pw.half_w)
          ((pw.xy.getD i (0, 0)).2 + (pw.perps.getD i (0, 0)).2 * pw.half_w) o.1 o.2).1
        (xy_to_latlon piA cosF
          ((pw.xy.getD i (0, 0)).1 + (pw.perps.getD i (0, 0)).1 * pw.half_w)
          ((pw.xy.getD i (0, 0)).2 + (pw.perps.getD i (0, 0)).2 * pw.half_w) o.1 o.2).2
    | .right =>
      add_node st
        (xy_to_latlon piA cosF
          ((pw.xy.getD i (0, 0)).1 - (pw.perps.getD i (0, 0)).1 * pw.half_w)
          ((pw.xy.getD i (0, 0)).2 - (pw.perps.getD i (0, 0)).2 * pw.half_w) o.1 o.2).1
        (xy_to_latlon piA cosF
          ((pw.xy.getD i (0, 0)).1 - (pw.perps.getD i (0, 0)).1 * pw.half_w)
          ((pw.xy.getD i (0, 0)).2 - (pw.perps.getD i (0, 0)).2 * pw.half_w) o.1 o.2).2
    | .centre =>
      add_node st
        (xy_to_latlon piA cosF (pw.xy.getD i (0, 0)).1 (pw.xy.getD i (0, 0)).2 o.1 o.2).1
        (xy_to_latlon piA cosF (pw.xy.getD i (0, 0)).1 (pw.xy.getD i (0, 0)).2 o.1 o.2).2

/-- Thread the output state through a list of id-producing allocations
(a Python list comprehension over `range(n)` with side effects). -/
def stRun {α : Type} (f : Nat → OutDoc α → Int × OutDoc α) :
    List Nat → OutDoc α → List Int × OutDoc α
  | [], st => ([], st)
  | i :: is, st =>
    let p := f i st
    let q := stRun f is p.2
    (p.1 :: q.1, q.2)

/-- Phase 5 for one way: resolve boundary sequences and assemble lanelet
relations.  A oneway way yields solid left/right boundary ways and one
relation tagged `one_way=yes`; a two-way way yields a forward lanelet
(solid left way + dashed centre way) and a reverse lanelet built from new
ways holding the reversed centre and reversed right sequences. -/
def buildWay {α : Type} [LinearOrderedField α] (piA : α) (cosF : α → α) (o : α × α)
    (shared : List (String × Triple)) (pw : PWay α) (st : OutDoc α) : OutDoc α :=
  let n := pw.way.refs.length
  let rng := List.range n
  if pw.way.oneway then
    let lp := stRun (fun i st => boundary_node piA cosF o shared pw i Side.left st) rng st
    let rp := stRun (fun i st => boundary_node piA cosF o shared pw i Side.right st) rng lp.2
    let lw := add_way rp.2 lp.1 (solidTags pw.way)
    let rw := add_way lw.2 rp.1 (solidTags pw.way)
    (add_relation rw.2 [("way", lw.1, "left"), ("way", rw.1, "right")]
      (relTags pw.way ++ [("one_way", "yes")])).2
  else
    let lp := stRun (fun i st => boundary_node piA cosF o shared pw i Side.left st) rng st
    let cp := stRun (fun i st => boundary_node piA cosF o shared pw i Side.centre st) rng lp.2
    let rp := stRun (fun i st => boundary_node piA cosF o shared pw i Side.right st) rng cp.2
    let lw := add_way rp.2 lp.1 (solidTags pw.way)
    let cw := add_way lw.2 cp.1 dashedTags
    let r1 := add_relation cw.2 [("way", lw.1, "left"), ("way", cw.1, "right")] (relTags pw.way)
    let cw2 := add_way r1.2 cp.1.reverse dashedTags
    let rw2 := add_way cw2.2 rp.1.reverse (solidTags pw.way)
    (add_relation rw2.2 [("way", cw2.1, "left"), ("way", rw2.1, "right")] (relTags pw.way)).2

/-- The initial output document: echoed bounds, no entities, fresh counters. -/
def initOut {α : Type} (doc : InDoc α) : OutDoc α :=
  ⟨doc.bounds, [], [], [], -1, -1, -1⟩

/-- Phases 1-4 packaged: the shared-triple registry and the output state after
junction materialization. -/
def sharedPair {α : Type} [LinearOrderedField α] (sqrt : α → α) (piA : α) (cosF : α → α)
    (doc : InDoc α) (o : α × α) : List (String × Triple) × OutDoc α :=
  mkShared sqrt piA cosF o (nodeXY piA cosF doc.nodes o)
    (endpointInfo (enrichedWays sqrt piA cosF doc o)) (initOut doc)

/-- The shared-triple registry of a run. -/
def sharedOf {α : Type} [LinearOrderedField α] (sqrt : α → α) (piA : α) (cosF : α → α)
    (doc : InDoc α) (o : α × α) : List (String × Triple) :=
  (sharedPair sqrt piA cosF doc o).1

/-- The whole conversion for a fixed origin. -/
def convertFrom {α : Type} [LinearOrderedField α] (sqrt : α → α) (piA : α) (cosF : α → α)
    (doc : InDoc α) (o : α × α) : OutDoc α :=
  (enrichedWays sqrt piA cosF doc o).foldl
    (fun st pw => buildWay piA cosF o (sharedOf sqrt piA cosF doc o) pw st)
    (sharedPair sqrt piA cosF doc o).2

/-- `convert`: the full pipeline; `none` models the crash when no origin can be
determined (no bounds and no nodes). -/
def convert {α : Type} [LinearOrderedField α] (sqrt : α → α) (piA : α) (cosF : α → α)
    (doc : InDoc α) : Option (OutDoc α) :=
  match origin? doc with
  | none => none
  | some o => some (convertFrom sqrt piA cosF doc o)

/-- Eligibility of an input way for conversion: recognized highway category
and at least 2 node references resolvable in the node index. -/
def eligible {α : Type} (nodes : List (InNode α)) (w : InWay) : Bool :=
  (HALF_WIDTHS (tagGet w.tags "highway" "")).isSome &&
  !(decide ((w.nds.filter (fun r => (findNode nodes r).isSome)).length < 2))

/-- Scenario A of the specification: one two-way residential way over the two
source nodes `A` and `B`, nothing else. -/
def scenarioA {α : Type} (b1 b2 b3 b4 la1 lo1 la2 lo2 : α) : InDoc α :=
  ⟨some (b1, b2, b3, b4),
   [⟨"A", la1, lo1⟩, ⟨"B", la2, lo2⟩],
   [⟨"wA", ["A", "B"], [("highway", "residential")]⟩]⟩

/-- Scenario B of the specification: two oneway residential ways, both ending
at source node `C`, sharing no other node. -/
def scenarioB {α : Type} (b1 b2 b3 b4 d1 d2 c1 c2 e1 e2 : α) : InDoc α :=
  ⟨some (b1, b2, b3, b4),
   [⟨"D", d1, d2⟩, ⟨"C", c1, c2⟩, ⟨"E", e1, e2⟩],
   [⟨"wB1", ["D", "C"], [("highway", "residential"), ("oneway", "yes")]⟩,
    ⟨"wB2", ["E", "C"], [("highway", "residential"), ("oneway", "yes")]⟩]⟩

/-- Identity stand-in for `sqrt` in witnesses of geometry-independent facts. -/
def qid : ℚ → ℚ := fun x => x

/-- Constant-one stand-in for `cos` in witnesses of geometry-independent facts. -/
def qone : ℚ → ℚ := fun _ => 1

/-- Scenario A over `ℚ` with the specification's concrete coordinates. -/
def docAQ : InDoc ℚ :=
  scenarioA 0 0 (1 / 1000) (1 / 1000) 0 0 (1 / 2000) (1 / 2000)

/-- Scenario B over `ℚ` with concrete coordinates. -/
def docBQ : InDoc ℚ :=
  scenarioB 0 0 (1 / 1000) (1 / 1000) 0 0 (1 / 2000) (1 / 2000) (1 / 1000) 0

/-- The common origin (bounds midpoint) of `docAQ` and `docBQ`. -/
def oQ : ℚ × ℚ :=
  (1 / 2000, 1 / 2000)

/-- A fallback `PWay` for safe list indexing in witnesses. -/
def pwDefault : PWay ℚ :=
  ⟨⟨"", "", [], false, "", ""⟩, [], [], 0⟩

/-- The first and second enriched ways of the scenario-B run over `ℚ`. -/
def pwB1 : PWay ℚ :=
  (enrichedWays qid 3 qone docBQ oQ).getD 0 pwDefault

/-- See `pwB1`. -/
def pwB2 : PWay ℚ :=
  (enrichedWays qid 3 qone docBQ oQ).getD 1 pwDefault

/-- A concrete oneway way record with precomputed geometry fields, for
exercising the per-way builder. -/
def pwOne : PWay ℚ :=
  ⟨⟨"x1", "residential", ["A", "B"], true, "30", ""⟩,
   [(0, 0), (1, 0)], [(0, 1), (0, 1)], 11 / 4⟩

/-- A concrete two-way way record with precomputed geometry fields. -/
def pwTwo : PWay ℚ :=
  ⟨⟨"x2", "residential", ["A", "B"], false, "30", ""⟩,
   [(0, 0), (1, 0)], [(0, 1), (0, 1)], 11 / 4⟩

/-- A concrete input way carrying no `maxspeed` tag. -/
def wPlain : InWay :=
  ⟨"wp", ["A", "B"], [("highway", "residential")]⟩

/-- The collected record of `wPlain` against the scenario-A nodes. -/
def hwPlain : HWay :=
  ⟨"wp", "residential", ["A", "B"], false, "30", ""⟩

/-- Input with a suffixed `maxspeed` value that passes the stripped digit
check: one oneway residential way tagged `maxspeed = "30 mph"`. -/
def docSpeedQ : InDoc ℚ :=
  ⟨some (0, 0, 1 / 1000, 1 / 1000),
   [⟨"A", 0, 0⟩, ⟨"B", 1 / 2000, 1 / 2000⟩],
   [⟨"w4", ["A", "B"], [("highway", "residential"), ("oneway", "yes"), ("maxspeed", "30 mph")]⟩]⟩

/-- Input whose ways are all ineligible: an unrecognized category, a
single-reference way, and a way with only one resolvable reference. -/
def docBadQ : InDoc ℚ :=
  ⟨some (0, 0, 1, 1),
   [⟨"X", 0, 0⟩],
   [⟨"b1", ["X", "X"], [("highway", "banana")]⟩,
    ⟨"b2", ["X"], [("highway", "residential")]⟩,
    ⟨"b3", ["X", "ZZ"], [("highway", "residential")]⟩]⟩

/-- Input with a single closed two-way way whose first and last references are
the same source node `A`. -/
def docClosedQ : InDoc ℚ :=
  ⟨some (0, 0, 1, 1),
   [⟨"A", 0, 0⟩, ⟨"B", 1 / 2000, 0⟩],
   [⟨"wc", ["A", "B", "A"], [("highway", "residential")]⟩]⟩

/-- The origin (bounds midpoint) of `docClosedQ` and `docBadQ`. -/
def oQ2 : ℚ × ℚ :=
  (1 / 2, 1 / 2)

/-- Contributions of a small concrete junction, for witnesses. -/
def infosW : List (ℚ × ℚ × ℚ) :=
  [(1, 0, 2), (0, 1, 4)]

/-- A small endpoint-contribution dict with one junction, for witnesses. -/
def einfoW : List (String × List (ℚ × ℚ × ℚ)) :=
  [("J", infosW)]

/-- A concrete planar-position map for witnesses. -/
def nxyW : String → ℚ × ℚ :=
  fun _ => (0, 0)

/-- A concrete origin for witnesses. -/
def oW : ℚ × ℚ :=
  (0, 0)

/-- Claim C6 read literally: at every junction the shared left node is placed
at the centre point plus `normalize(sum of contributing normals)` (not the
mean) times the mean half-width. -/
def mergedDirSumClaim {α : Type} [LinearOrderedField α] (sqrt : α → α) (piA : α)
    (cosF : α → α) (o : α × α) (nxy : String → α × α)
    (einfo : List (String × List (α × α × α))) (st : OutDoc α) : Prop :=
  ∀ r infos t, lookupInfos einfo r = some infos → 2 ≤ infos.length →
    lookupTriple (mkShared sqrt piA cosF o nxy einfo st).1 r = some t →
    OutNode.mk t.left
        (xy_to_latlon piA cosF
          ((nxy r).1 + (normalize sqrt ((infos.map (fun i => i.1)).sum)
            ((infos.map (fun i => i.2.1)).sum)).1 * mergedHW infos)
          ((nxy r).2 + (normalize sqrt ((infos.map (fun i => i.1)).sum)
            ((infos.map (fun i => i.2.1)).sum)).2 * mergedHW infos) o.1 o.2).1
        (xy_to_latlon piA cosF
          ((nxy r).1 + (normalize sqrt ((infos.map (fun i => i.1)).sum)
            ((infos.map (fun i => i.2.1)).sum)).1 * mergedHW infos)
          ((nxy r).2 + (normalize sqrt ((infos.map (fun i => i.1)).sum)
            ((infos.map (fun i => i.2.1)).sum)).2 * mergedHW infos) o.1 o.2).2
      ∈ (mkShared sqrt piA cosF o nxy einfo st).2.nodes

/-- The stereographic parameter of the second contributing normal in the
junction-averaging counterexample. -/
noncomputable def tC : ℝ :=
  1 / 2 + 1 / 10 ^ 10

/-- A rational unit vector very close to the antipode of `(3/5, 4/5)`. -/
noncomputable def vC : ℝ × ℝ :=
  (-(1 - tC ^ 2) / (1 + tC ^ 2), -(2 * tC) / (1 + tC ^ 2))

/-- Two unit endpoint normals whose sum has magnitude strictly between
`1e-10` and `2e-10`: the guard of `normalize` accepts the sum but rejects the
mean, so averaging and summing disagree here. -/
noncomputable def cexInfos : List (ℝ × ℝ × ℝ) :=
  [(3 / 5, 4 / 5, 11 / 4), (vC.1, vC.2, 11 / 4)]

/-- An endpoint-contribution dict holding exactly the junction `"C"` with the
contributions `cexInfos`. -/
noncomputable def cexEinfo : List (String × List (ℝ × ℝ × ℝ)) :=
  [("C", cexInfos)]

/-! ## Helper lemmas -/

theorem normalize_of_not_gt {α : Type} [LinearOrderedField α] (sqrt : α → α) (dx dy : α)
    (h : sqrt (dx ^ 2 + dy ^ 2) ≤ 1 / 10 ^ 10) : normalize sqrt dx dy = (0, 1) := by
  unfold normalize
  rw [if_neg (not_lt.mpr h)]

theorem normalize_of_gt {α : Type} [LinearOrderedField α] (sqrt : α → α) (dx dy : α)
    (h : 1 / 10 ^ 10 < sqrt (dx ^ 2 + dy ^ 2)) :
    normalize sqrt dx dy = (dx / sqrt (dx ^ 2 + dy ^ 2), dy / sqrt (dx ^ 2 + dy ^ 2)) := by
  unfold normalize
  rw [if_pos h]

theorem normalize_sq_one {α : Type} [LinearOrderedField α] (sqrt : α → α)
    (hsq : ∀ z : α, 0 ≤ z → sqrt z ^ 2 = z)
    (dx dy : α) : (normalize sqrt dx dy).1 ^ 2 + (normalize sqrt dx dy).2 ^ 2 = 1 := by
  have hnn : (0 : α) ≤ dx ^ 2 + dy ^ 2 := by positivity
  by_cases h : (1 / 10 ^ 10 : α) < sqrt (dx ^ 2 + dy ^ 2)
  · have hgt0 : (0 : α) < sqrt (dx ^ 2 + dy ^ 2) := by
      have : (0 : α) < 1 / 10 ^ 10 := by positivity
      exact this.trans h
    rw [normalize_of_gt sqrt dx dy h]
    have hne := ne_of_gt hgt0
    field_simp
    exact (hsq _ hnn).symm
  · rw [normalize_of_not_gt sqrt dx dy (not_lt.mp h)]
    norm_num

theorem allSome_length {β : Type} :
    ∀ {l : List (Option β)} {bs : List β}, allSome l = some bs → bs.length = l.length := by
  intro l
  induction l with
  | nil =>
    intro bs h
    simp only [allSome, Option.some.injEq] at h
    subst h
    rfl
  | cons a t ih =>
    intro bs h
    cases a with
    | none => simp [allSome] at h
    | some b =>
      simp only [allSome] at h
      cases ht : allSome t with
      | none => rw [ht] at h; simp at h
      | some bs' =>
        rw [ht] at h
        simp only [Option.some.injEq] at h
        subst h
        simp [ih ht]

theorem allSome_mem {β : Type} :
    ∀ {l : List (Option β)} {bs : List β}, allSome l = some bs → ∀ b ∈ bs, some b ∈ l := by
  intro l
  induction l with
  | nil =>
    intro bs h b hb
    simp only [allSome, Option.some.injEq] at h
    subst h
    simp at hb
  | cons a t ih =>
    intro bs h b hb
    cases a with
    | none => simp [allSome] at h
    | some b' =>
      simp only [allSome] at h
      cases ht : allSome t with
      | none => rw [ht] at h; simp at h
      | some bs' =>
        rw [ht] at h
        simp only [Option.some.injEq] at h
        subst h
        rcases List.mem_cons.mp hb with h1 | h1
        · subst h1; exact List.mem_cons_self _ _
        · exact List.mem_cons_of_mem _ (ih ht b h1)

theorem allSome_isSome {β : Type} :
    ∀ {l : List (Option β)}, (∀ x ∈ l, x.isSome) → ∃ bs, allSome l = some bs := by
  intro l
  induction l with
  | nil => intro _; exact ⟨[], rfl⟩
  | cons a t ih =>
    intro h
    cases a with
    | none =>
      have := h none (List.mem_cons_self _ _)
      simp at this
    | some b =>
      obtain ⟨bs, hbs⟩ := ih (fun x hx => h x (List.mem_cons_of_mem _ hx))
      exact ⟨b :: bs, by simp [allSome, hbs]⟩

theorem perpAt_isSome {α : Type} [LinearOrderedField α] (sqrt : α → α)
    (xs : List (α × α)) (i : Nat) (hn : xs.length ≠ 1) (hi : i < xs.length) :
    (perpAt sqrt xs xs.length i).isSome := by
  unfold perpAt
  have hne : (dirsAt sqrt xs xs.length i).length ≠ 0 := by
    unfold dirsAt
    rcases Nat.eq_zero_or_pos i with h0 | h0
    · subst h0
      have h2 : 0 + 1 < xs.length := by omega
      simp [h2]
    · simp [h0]
  rw [if_neg hne]
  rfl

theorem perpAt_some_shape {α : Type} [LinearOrderedField α] (sqrt : α → α)
    (xs : List (α × α)) (n i : Nat) (p : α × α) (h : perpAt sqrt xs n i = some p) :
    ∃ a b, p = normalize sqrt a b := by
  unfold perpAt at h
  by_cases hd : (dirsAt sqrt xs n i).length = 0
  · rw [if_pos hd] at h
    exact absurd h (by simp)
  · rw [if_neg hd] at h
    simp only [Option.some.injEq] at h
    subst h
    exact ⟨_, _, rfl⟩

theorem lookupInfos_addInfo_self {α : Type} :
    ∀ (m : List (String × List (α × α × α))) (k : String) (v : α × α × α),
      lookupInfos (addInfo m k v) k = some (((lookupInfos m k).getD []) ++ [v]) := by
  intro m
  induction m with
  | nil =>
    intro k v
    simp [addInfo, lookupInfos]
  | cons hd tl ih =>
    intro k v
    by_cases h : hd.1 = k
    · simp only [addInfo, lookupInfos]
      rw [show (hd.1, hd.2) = hd from rfl] at *
      subst h
      simp [lookupInfos, List.find?]
    · have hne : (hd.1 == k) = false := by simp [h]
      simp only [addInfo]
      rw [if_neg h]
      simp only [lookupInfos, List.find?, hne]
      exact ih k v

theorem lookupInfos_addInfo_ne {α : Type} (m : List (String × List (α × α × α)))
    (k r : String) (v : α × α × α) (h : k ≠ r) :
    lookupInfos (addInfo m k v) r = lookupInfos m r := by
  induction m with
  | nil =>
    have : (k == r) = false := by simp [h]
    simp [addInfo, lookupInfos, List.find?, this]
  | cons hd tl ih =>
    by_cases hh : hd.1 = k
    · simp only [addInfo]
      rw [if_pos hh]
      have : (hd.1 == r) = false := by simp [hh, h]
      simp [lookupInfos, List.find?, this]
    · simp only [addInfo]
      rw [if_neg hh]
      by_cases hr : hd.1 = r
      · have : (hd.1 == r) = true := by simp [hr]
        simp [lookupInfos, List.find?, this]
      · have : (hd.1 == r) = false := by simp [hr]
        simp only [lookupInfos, List.find?, this] at ih ⊢
        exact ih

theorem cnt_addInfo_self {α : Type} (m : List (String × List (α × α × α)))
    (k : String) (v : α × α × α) : cnt (addInfo m k v) k = cnt m k + 1 := by
  unfold cnt
  rw [lookupInfos_addInfo_self]
  simp

theorem cnt_addInfo_le {α : Type} (m : List (String × List (α × α × α)))
    (k r : String) (v : α × α × α) : cnt m r ≤ cnt (addInfo m k v) r := by
  by_cases h : k = r
  · subst h
    rw [cnt_addInfo_self]
    omega
  · rw [show cnt (addInfo m k v) r = cnt m r from by unfold cnt; rw [lookupInfos_addInfo_ne m k r v h]]

theorem wayEndpoints_eq {α : Type} [LinearOrderedField α] (pw : PWay α)
    (m : List (String × List (α × α × α))) :
    wayEndpoints pw m =
      addInfo
        (addInfo m (pw.way.refs.getD 0 "")
          ((pw.perps.getD 0 (0, 0)).1, (pw.perps.getD 0 (0, 0)).2, pw.half_w))
        (pw.way.refs.getD (pw.way.refs.length - 1) "")
        ((pw.perps.getD (pw.way.refs.length - 1) (0, 0)).1,
         (pw.perps.getD (pw.way.refs.length - 1) (0, 0)).2, pw.half_w) := rfl

theorem cnt_wayEndpoints_le {α : Type} [LinearOrderedField α] (pw : PWay α)
    (m : List (String × List (α × α × α))) (r : String) :
    cnt m r ≤ cnt (wayEndpoints pw m) r := by
  rw [wayEndpoints_eq]
  exact le_trans (cnt_addInfo_le _ _ _ _) (cnt_addInfo_le _ _ _ _)

theorem cnt_foldl_le {α : Type} [LinearOrderedField α] :
    ∀ (pws : List (PWay α)) (m : List (String × List (α × α × α))) (r : String),
      cnt m r ≤ cnt (pws.foldl (fun m pw => wayEndpoints pw m) m) r := by
  intro pws
  induction pws with
  | nil => intro m r; exact le_refl _
  | cons hd tl ih =>
    intro m r
    exact le_trans (cnt_wayEndpoints_le hd m r) (ih (wayEndpoints hd m) r)

theorem cnt_endpointInfo_closed {α : Type} [LinearOrderedField α]
    (pws : List (PWay α)) (pw : PWay α) (r : String) (hmem : pw ∈ pws)
    (h0 : pw.way.refs.getD 0 "" = r)
    (h1 : pw.way.refs.getD (pw.way.refs.length - 1) "" = r) :
    2 ≤ cnt (endpointInfo pws) r := by
  unfold endpointInfo
  have key : ∀ (l : List (PWay α)) (m : List (String × List (α × α × α))),
      pw ∈ l → 2 ≤ cnt (l.foldl (fun m pw => wayEndpoints pw m) m) r := by
    intro l
    induction l with
    | nil => intro m h; simp at h
    | cons hd tl ih =>
      intro m h
      rcases List.mem_cons.mp h with heq | htl
      · subst heq
        have h2 : 2 ≤ cnt (wayEndpoints pw m) r := by
          rw [wayEndpoints_eq, h0, h1, cnt_addInfo_self, cnt_addInfo_self]
          omega
        exact le_trans h2 (cnt_foldl_le tl (wayEndpoints pw m) r)
      · exact ih (wayEndpoints hd m) htl
  exact key pws [] hmem

theorem addInfo_keys {α : Type} :
    ∀ (m : List (String × List (α × α × α))) (k : String) (v : α × α × α),
      (addInfo m k v).map Prod.fst =
        if k ∈ m.map Prod.fst then m.map Prod.fst else m.map Prod.fst ++ [k] := by
  intro m
  induction m with
  | nil => intro k v; simp [addInfo]
  | cons hd tl ih =>
    intro k v
    have hmem : (k ∈ (hd :: tl).map Prod.fst) ↔ (k ∈ tl.map Prod.fst) ∨ hd.1 = k := by
      simp only [List.map_cons, List.mem_cons]
      constructor
      · rintro (h1 | h1)
        · exact Or.inr h1.symm
        · exact Or.inl h1
      · rintro (h1 | h1)
        · exact Or.inr h1
        · exact Or.inl h1.symm
    by_cases h : hd.1 = k
    · subst h
      simp only [addInfo, if_pos rfl]
      rw [if_pos (hmem.mpr (Or.inr rfl))]
      simp
    · simp only [addInfo]
      rw [if_neg h]
      by_cases hk : k ∈ tl.map Prod.fst
      · rw [if_pos (hmem.mpr (Or.inl hk))]
        simp only [List.map_cons, ih k v, if_pos hk]
      · rw [if_neg (fun hh => (hmem.mp hh).elim hk h)]
        simp only [List.map_cons, ih k v, if_neg hk]
        simp

theorem addInfo_keys_nodup {α : Type} (m : List (String × List (α × α × α)))
    (k : String) (v : α × α × α) (h : (m.map Prod.fst).Nodup) :
    ((addInfo m k v).map Prod.fst).Nodup := by
  rw [addInfo_keys]
  by_cases hk : k ∈ m.map Prod.fst
  · rw [if_pos hk]; exact h
  · rw [if_neg hk]
    rw [List.nodup_append]
    refine ⟨h, List.nodup_singleton _, ?_⟩
    intro a ha hal
    have haeq : a = k := by simpa using hal
    subst haeq
    exact hk ha

theorem endpointInfo_keys_nodup {α : Type} [LinearOrderedField α] (pws : List (PWay α)) :
    ((endpointInfo pws).map Prod.fst).Nodup := by
  unfold endpointInfo
  have key : ∀ (l : List (PWay α)) (m : List (String × List (α × α × α))),
      (m.map Prod.fst).Nodup →
      ((l.foldl (fun m pw => wayEndpoints pw m) m).map Prod.fst).Nodup := by
    intro l
    induction l with
    | nil => intro m h; exact h
    | cons hd tl ih =>
      intro m h
      refine ih (wayEndpoints hd m) ?_
      rw [wayEndpoints_eq]
      exact addInfo_keys_nodup _ _ _ (addInfo_keys_nodup _ _ _ h)
  exact key pws [] (by simp)

theorem mkShared_nodes_mono {α : Type} [LinearOrderedField α] (sqrt : α → α) (piA : α)
    (cosF : α → α) (o : α × α) (nxy : String → α × α) :
    ∀ (einfo : List (String × List (α × α × α))) (st : OutDoc α) (nd : OutNode α),
      nd ∈ st.nodes → nd ∈ (mkShared sqrt piA cosF o nxy einfo st).2.nodes := by
  intro einfo
  induction einfo with
  | nil => intro st nd h; exact h
  | cons hd tl ih =>
    intro st nd h
    rw [show hd = (hd.1, hd.2) from rfl]
    by_cases hlen : hd.2.length < 2
    · simp only [mkShared, if_pos hlen]
      exact ih st nd h
    · simp only [mkShared, if_neg hlen]
      refine ih _ nd ?_
      simp only [add_node]
      exact List.mem_append_left _ (List.mem_append_left _ (List.mem_append_left _ h))

theorem mkShared_lookup_spec {α : Type} [LinearOrderedField α] (sqrt : α → α) (piA : α)
    (cosF : α → α) (o : α × α) (nxy : String → α × α) :
    ∀ (einfo : List (String × List (α × α × α))) (st : OutDoc α) (r : String)
      (infos : List (α × α × α)),
      lookupInfos einfo r = some infos → 2 ≤ infos.length →
      ∃ t, lookupTriple (mkShared sqrt piA cosF o nxy einfo st).1 r = some t ∧
        OutNode.mk t.left (sharedLeftPos sqrt piA cosF o nxy r infos).1
            (sharedLeftPos sqrt piA cosF o nxy r infos).2
          ∈ (mkShared sqrt piA cosF o nxy einfo st).2.nodes ∧
        OutNode.mk t.centre (sharedCentrePos piA cosF o nxy r).1
            (sharedCentrePos piA cosF o nxy r).2
          ∈ (mkShared sqrt piA cosF o nxy einfo st).2.nodes ∧
        OutNode.mk t.right (sharedRightPos sqrt piA cosF o nxy r infos).1
            (sharedRightPos sqrt piA cosF o nxy r infos).2
          ∈ (mkShared sqrt piA cosF o nxy einfo st).2.nodes := by
  intro einfo
  induction einfo with
  | nil =>
    intro st r infos h
    simp [lookupInfos] at h
  | cons hd tl ih =>
    intro st r infos h h2
    by_cases hr : hd.1 = r
    · have hinfos : hd.2 = infos := by
        simp only [lookupInfos, List.find?, show (hd.1 == r) = true from by simp [hr]] at h
        simpa using h
      have hlen : ¬hd.2.length < 2 := by rw [hinfos]; omega
      rw [show hd = (hd.1, hd.2) from rfl]
      simp only [mkShared, if_neg hlen]
      subst hr
      subst hinfos
      refine ⟨⟨st.nextN, st.nextN - 1, st.nextN - 1 - 1⟩, ?_, ?_, ?_, ?_⟩
      · simp [lookupTriple, List.find?, add_node]
      · refine mkShared_nodes_mono sqrt piA cosF o nxy tl _ _ ?_
        simp [add_node]
      · refine mkShared_nodes_mono sqrt piA cosF o nxy tl _ _ ?_
        simp [add_node]
      · refine mkShared_nodes_mono sqrt piA cosF o nxy tl _ _ ?_
        simp [add_node]
    · have htl : lookupInfos tl r = some infos := by
        simp only [lookupInfos, List.find?, show (hd.1 == r) = false from by simp [hr]] at h
        exact h
      rw [show hd = (hd.1, hd.2) from rfl]
      by_cases hlen : hd.2.length < 2
      · simp only [mkShared, if_pos hlen]
        exact ih st r infos htl h2
      · simp only [mkShared, if_neg hlen]
        obtain ⟨t, ht, hm1, hm2, hm3⟩ := ih _ r infos htl h2
        refine ⟨t, ?_, hm1, hm2, hm3⟩
        simpa [lookupTriple, List.find?, show (hd.1 == r) = false from by simp [hr]] using ht

theorem mkShared_keys {α : Type} [LinearOrderedField α] (sqrt : α → α) (piA : α)
    (cosF : α → α) (o : α × α) (nxy : String → α × α) :
    ∀ (einfo : List (String × List (α × α × α))) (st : OutDoc α),
      ((mkShared sqrt piA cosF o nxy einfo st).1).map Prod.fst =
        (einfo.filter (fun p => decide (2 ≤ p.2.length))).map Prod.fst := by
  intro einfo
  induction einfo with
  | nil => intro st; rfl
  | cons hd tl ih =>
    intro st
    rw [show hd = (hd.1, hd.2) from rfl]
    by_cases hlen : hd.2.length < 2
    · have : (decide (2 ≤ hd.2.length)) = false := by simp; omega
      simp only [mkShared, if_pos hlen, List.filter, this]
      exact ih st
    · have : (decide (2 ≤ hd.2.length)) = true := by simp; omega
      simp only [mkShared, if_neg hlen, List.filter, this, List.map_cons]
      rw [ih]

theorem lookupTriple_mem_keys (shared : List (String × Triple)) (r : String) (t : Triple)
    (h : lookupTriple shared r = some t) : r ∈ shared.map Prod.fst := by
  unfold lookupTriple at h
  cases hf : shared.find? (fun p => p.1 == r) with
  | none => rw [hf] at h; simp at h
  | some p =>
    rw [hf] at h
    have hp := List.find?_some hf
    have hmem := List.mem_of_find?_eq_some hf
    have : p.1 = r := by simpa using hp
    subst this
    exact List.mem_map_of_mem Prod.fst hmem

theorem countP_eq_one_of_nodup_keys {β : Type} (l : List (String × β)) (r : String)
    (hnd : (l.map Prod.fst).Nodup) (hmem : r ∈ l.map Prod.fst) :
    l.countP (fun p => p.1 == r) = 1 := by
  have h1 : l.countP (fun p => p.1 == r) = (l.map Prod.fst).countP (fun k => k == r) := by
    rw [List.countP_map]
    rfl
  rw [h1]
  exact List.count_eq_one_of_mem hnd hmem

theorem boundary_node_shared {α : Type} [LinearOrderedField α] (piA : α) (cosF : α → α)
    (o : α × α) (shared : List (String × Triple)) (pw : PWay α) (i : Nat) (t : Triple)
    (hp : i = 0 ∨ i = pw.way.refs.length - 1)
    (ht : lookupTriple shared (pw.way.refs.getD i "") = some t)
    (side : Side) (st : OutDoc α) :
    boundary_node piA cosF o shared pw i side st = (t.get side, st) := by
  simp only [boundary_node, ht]
  rw [if_pos (And.intro hp (by rfl))]
  rfl

theorem getD_mem_of_lt {β : Type} (l : List β) (n : Nat) (d : β) (h : n < l.length) :
    l.getD n d ∈ l := by
  rw [List.getD_eq_getElem?_getD, List.getElem?_eq_getElem h]
  exact List.getElem_mem h

theorem enrich_way {α : Type} [LinearOrderedField α] (sqrt : α → α) (piA : α)
    (cosF : α → α) (nodes : List (InNode α)) (o : α × α) (w : HWay) :
    (enrich sqrt piA cosF nodes o w).way = w := rfl

theorem cnt_to_lookup {α : Type} (einfo : List (String × List (α × α × α))) (r : String)
    (hcnt : 2 ≤ cnt einfo r) :
    ∃ infos, lookupInfos einfo r = some infos ∧ 2 ≤ infos.length := by
  unfold cnt at hcnt
  cases hli : lookupInfos einfo r with
  | none => rw [hli] at hcnt; simp at hcnt
  | some infos =>
    rw [hli] at hcnt
    exact ⟨infos, rfl, by simpa using hcnt⟩

theorem sharedOf_keys_nodup {α : Type} [LinearOrderedField α] (sqrt : α → α) (piA : α)
    (cosF : α → α) (doc : InDoc α) (o : α × α) :
    ((sharedOf sqrt piA cosF doc o).map Prod.fst).Nodup := by
  show (((mkShared sqrt piA cosF o (nodeXY piA cosF doc.nodes o)
    (endpointInfo (enrichedWays sqrt piA cosF doc o)) (initOut doc)).1).map Prod.fst).Nodup
  rw [mkShared_keys]
  have hsub : ((endpointInfo (enrichedWays sqrt piA cosF doc o)).filter
      (fun p => decide (2 ≤ p.2.length))).map Prod.fst |>.Sublist
      ((endpointInfo (enrichedWays sqrt piA cosF doc o)).map Prod.fst) :=
    List.Sublist.map Prod.fst (List.filter_sublist _)
  exact (endpointInfo_keys_nodup _).sublist hsub

theorem sharedOf_lookup_of_cnt {α : Type} [LinearOrderedField α] (sqrt : α → α) (piA : α)
    (cosF : α → α) (doc : InDoc α) (o : α × α) (r : String)
    (hcnt : 2 ≤ cnt (endpointInfo (enrichedWays sqrt piA cosF doc o)) r) :
    ∃ t, lookupTriple (sharedOf sqrt piA cosF doc o) r = some t := by
  obtain ⟨infos, hli, h2⟩ := cnt_to_lookup _ r hcnt
  obtain ⟨t, ht, -, -, -⟩ := mkShared_lookup_spec sqrt piA cosF o
    (nodeXY piA cosF doc.nodes o) (endpointInfo (enrichedWays sqrt piA cosF doc o))
    (initOut doc) r infos hli h2
  exact ⟨t, ht⟩

/-! ## Claim C1 -/

/-- Claim C1: whenever two converted ways use the same source node as an
endpoint and that node has at least two endpoint contributions, the
shared-triple registry holds exactly one triple for it, and `boundary_node`
resolves that endpoint position of both ways, for every side, to the very same
pre-materialized output-node id, leaving the output state untouched (nothing is
recomputed). -/
theorem C1_junction_sharing {α : Type} [LinearOrderedField α] (sqrt : α → α) (piA : α)
    (cosF : α → α) (doc : InDoc α) (o : α × α) (w1 w2 : PWay α) (p1 p2 : Nat) (r : String)
    (hw1 : w1 ∈ enrichedWays sqrt piA cosF doc o)
    (hw2 : w2 ∈ enrichedWays sqrt piA cosF doc o)
    (hp1 : p1 = 0 ∨ p1 = w1.way.refs.length - 1)
    (hp2 : p2 = 0 ∨ p2 = w2.way.refs.length - 1)
    (hr1 : w1.way.refs.getD p1 "" = r) (hr2 : w2.way.refs.getD p2 "" = r)
    (hcnt : 2 ≤ cnt (endpointInfo (enrichedWays sqrt piA cosF doc o)) r) :
    ∃ t, lookupTriple (sharedOf sqrt piA cosF doc o) r = some t ∧
      (sharedOf sqrt piA cosF doc o).countP (fun p => p.1 == r) = 1 ∧
      ∀ (side : Side) (st1 st2 : OutDoc α),
        boundary_node piA cosF o (sharedOf sqrt piA cosF doc o) w1 p1 side st1 =
          (t.get side, st1) ∧
        boundary_node piA cosF o (sharedOf sqrt piA cosF doc o) w2 p2 side st2 =
          (t.get side, st2) := by
  obtain ⟨t, ht⟩ := sharedOf_lookup_of_cnt sqrt piA cosF doc o r hcnt
  refine ⟨t, ht, ?_, ?_⟩
  · exact countP_eq_one_of_nodup_keys _ r (sharedOf_keys_nodup sqrt piA cosF doc o)
      (lookupTriple_mem_keys _ r t ht)
  · intro side st1 st2
    exact ⟨boundary_node_shared piA cosF o _ w1 p1 t hp1 (by rw [hr1]; exact ht) side st1,
           boundary_node_shared piA cosF o _ w2 p2 t hp2 (by rw [hr2]; exact ht) side st2⟩

/-- Witness for C1: the two scenario-B ways over `ℚ` share the endpoint `C`. -/
theorem C1_witness :
    pwB1 ∈ enrichedWays qid 3 qone docBQ oQ ∧
    pwB2 ∈ enrichedWays qid 3 qone docBQ oQ ∧
    (1 = 0 ∨ 1 = pwB1.way.refs.length - 1) ∧
    (1 = 0 ∨ 1 = pwB2.way.refs.length - 1) ∧
    pwB1.way.refs.getD 1 "" = "C" ∧ pwB2.way.refs.getD 1 "" = "C" ∧
    2 ≤ cnt (endpointInfo (enrichedWays qid 3 qone docBQ oQ)) "C" ∧
    (∃ t, lookupTriple (sharedOf qid 3 qone docBQ oQ) "C" = some t ∧
      (sharedOf qid 3 qone docBQ oQ).countP (fun p => p.1 == "C") = 1 ∧
      ∀ (side : Side) (st1 st2 : OutDoc ℚ),
        boundary_node 3 qone oQ (sharedOf qid 3 qone docBQ oQ) pwB1 1 side st1 =
          (t.get side, st1) ∧
        boundary_node 3 qone oQ (sharedOf qid 3 qone docBQ oQ) pwB2 1 side st2 =
          (t.get side, st2)) :=
  ⟨getD_mem_of_lt _ 0 pwDefault (by decide), getD_mem_of_lt _ 1 pwDefault (by decide),
   by decide, by decide, by decide, by decide, by decide,
   C1_junction_sharing qid 3 qone docBQ oQ pwB1 pwB2 1 1 "C"
     (getD_mem_of_lt _ 0 pwDefault (by decide)) (getD_mem_of_lt _ 1 pwDefault (by decide))
     (by decide) (by decide) (by decide) (by decide) (by decide)⟩

/-! ## Claim C10 -/

/-- Claim C10: a closed converted way (first and last node references equal)
alone gives that source node two endpoint contributions, so a shared triple is
materialized for it and both ends of the way's boundary sequences resolve to
the same shared output-node ids, whatever the rest of the input contains. -/
theorem C10_closed_way {α : Type} [LinearOrderedField α] (sqrt : α → α) (piA : α)
    (cosF : α → α) (doc : InDoc α) (o : α × α) (pw : PWay α) (r : String)
    (hmem : pw ∈ enrichedWays sqrt piA cosF doc o)
    (h0 : pw.way.refs.getD 0 "" = r)
    (h1 : pw.way.refs.getD (pw.way.refs.length - 1) "" = r) :
    2 ≤ cnt (endpointInfo (enrichedWays sqrt piA cosF doc o)) r ∧
    ∃ t, lookupTriple (sharedOf sqrt piA cosF doc o) r = some t ∧
      ∀ (side : Side) (st1 st2 : OutDoc α),
        boundary_node piA cosF o (sharedOf sqrt piA cosF doc o) pw 0 side st1 =
          (t.get side, st1) ∧
        boundary_node piA cosF o (sharedOf sqrt piA cosF doc o) pw
          (pw.way.refs.length - 1) side st2 = (t.get side, st2) := by
  have hcnt := cnt_endpointInfo_closed (enrichedWays sqrt piA cosF doc o) pw r hmem h0 h1
  obtain ⟨t, ht⟩ := sharedOf_lookup_of_cnt sqrt piA cosF doc o r hcnt
  refine ⟨hcnt, t, ht, ?_⟩
  intro side st1 st2
  exact ⟨boundary_node_shared piA cosF o _ pw 0 t (Or.inl rfl) (by rw [h0]; exact ht) side st1,
         boundary_node_shared piA cosF o _ pw (pw.way.refs.length - 1) t (Or.inr rfl)
           (by rw [h1]; exact ht) side st2⟩

/-- Witness for C10: the closed way `[A, B, A]` over `ℚ`. -/
theorem C10_witness :
    ((enrichedWays qid 3 qone docClosedQ oQ2).getD 0 pwDefault ∈
      enrichedWays qid 3 qone docClosedQ oQ2) ∧
    ((enrichedWays qid 3 qone docClosedQ oQ2).getD 0 pwDefault).way.refs.getD 0 "" = "A" ∧
    ((enrichedWays qid 3 qone docClosedQ oQ2).getD 0 pwDefault).way.refs.getD
      (((enrichedWays qid 3 qone docClosedQ oQ2).getD 0 pwDefault).way.refs.length - 1) ""
      = "A" ∧
    (2 ≤ cnt (endpointInfo (enrichedWays qid 3 qone docClosedQ oQ2)) "A" ∧
     ∃ t, lookupTriple (sharedOf qid 3 qone docClosedQ oQ2) "A" = some t ∧
      ∀ (side : Side) (st1 st2 : OutDoc ℚ),
        boundary_node 3 qone oQ2 (sharedOf qid 3 qone docClosedQ oQ2)
          ((enrichedWays qid 3 qone docClosedQ oQ2).getD 0 pwDefault) 0 side st1 =
          (t.get side, st1) ∧
        boundary_node 3 qone oQ2 (sharedOf qid 3 qone docClosedQ oQ2)
          ((enrichedWays qid 3 qone docClosedQ oQ2).getD 0 pwDefault)
          (((enrichedWays qid 3 qone docClosedQ oQ2).getD 0 pwDefault).way.refs.length - 1)
          side st2 = (t.get side, st2)) :=
  ⟨getD_mem_of_lt _ 0 pwDefault (by decide), by decide, by decide,
   C10_closed_way qid 3 qone docClosedQ oQ2 _ "A"
     (getD_mem_of_lt _ 0 pwDefault (by decide)) (by decide) (by decide)⟩

/-! ## Claim C6 -/

/-- Claim C6 (amended): for every junction the merged offset direction is
`normalize` of the arithmetic mean of the contributing normals (the
equal-weight combination; it agrees with `normalize` of their plain sum except
when the sum's magnitude falls in the guard window between `1e-10` and the
contribution count times `1e-10`), the merged half-width is the arithmetic
mean of the contributing half-widths, and the shared left/right nodes are
placed at the centre point plus/minus that direction times that half-width. -/
theorem C6_junction_merge {α : Type} [LinearOrderedField α] (sqrt : α → α) (piA : α)
    (cosF : α → α) (o : α × α) (nxy : String → α × α)
    (einfo : List (String × List (α × α × α))) (st : OutDoc α) (r : String)
    (infos : List (α × α × α))
    (hl : lookupInfos einfo r = some infos) (h2 : 2 ≤ infos.length) :
    mergedDir sqrt infos =
      normalize sqrt ((infos.map (fun i => i.1)).sum / (infos.length : α))
                     ((infos.map (fun i => i.2.1)).sum / (infos.length : α)) ∧
    mergedHW infos = (infos.map (fun i => i.2.2)).sum / (infos.length : α) ∧
    sharedLeftPos sqrt piA cosF o nxy r infos =
      xy_to_latlon piA cosF ((nxy r).1 + (mergedDir sqrt infos).1 * mergedHW infos)
        ((nxy r).2 + (mergedDir sqrt infos).2 * mergedHW infos) o.1 o.2 ∧
    sharedRightPos sqrt piA cosF o nxy r infos =
      xy_to_latlon piA cosF ((nxy r).1 - (mergedDir sqrt infos).1 * mergedHW infos)
        ((nxy r).2 - (mergedDir sqrt infos).2 * mergedHW infos) o.1 o.2 ∧
    ∃ t, lookupTriple (mkShared sqrt piA cosF o nxy einfo st).1 r = some t ∧
      OutNode.mk t.left (sharedLeftPos sqrt piA cosF o nxy r infos).1
          (sharedLeftPos sqrt piA cosF o nxy r infos).2
        ∈ (mkShared sqrt piA cosF o nxy einfo st).2.nodes ∧
      OutNode.mk t.centre (sharedCentrePos piA cosF o nxy r).1
          (sharedCentrePos piA cosF o nxy r).2
        ∈ (mkShared sqrt piA cosF o nxy einfo st).2.nodes ∧
      OutNode.mk t.right (sharedRightPos sqrt piA cosF o nxy r infos).1
          (sharedRightPos sqrt piA cosF o nxy r infos).2
        ∈ (mkShared sqrt piA cosF o nxy einfo st).2.nodes :=
  ⟨rfl, rfl, rfl, rfl, mkShared_lookup_spec sqrt piA cosF o nxy einfo st r infos hl h2⟩

/-- Witness for C6 at a concrete rational junction with two contributions. -/
theorem C6_witness :
    lookupInfos einfoW "J" = some infosW ∧ 2 ≤ infosW.length ∧
    (mergedDir qid infosW =
      normalize qid ((infosW.map (fun i => i.1)).sum / (infosW.length : ℚ))
                    ((infosW.map (fun i => i.2.1)).sum / (infosW.length : ℚ)) ∧
     mergedHW infosW = (infosW.map (fun i => i.2.2)).sum / (infosW.length : ℚ) ∧
     sharedLeftPos qid 3 qone oW nxyW "J" infosW =
       xy_to_latlon 3 qone ((nxyW "J").1 + (mergedDir qid infosW).1 * mergedHW infosW)
         ((nxyW "J").2 + (mergedDir qid infosW).2 * mergedHW infosW) oW.1 oW.2 ∧
     sharedRightPos qid 3 qone oW nxyW "J" infosW =
       xy_to_latlon 3 qone ((nxyW "J").1 - (mergedDir qid infosW).1 * mergedHW infosW)
         ((nxyW "J").2 - (mergedDir qid infosW).2 * mergedHW infosW) oW.1 oW.2 ∧
     ∃ t, lookupTriple (mkShared qid 3 qone oW nxyW einfoW emptyOut).1 "J" = some t ∧
       OutNode.mk t.left (sharedLeftPos qid 3 qone oW nxyW "J" infosW).1
           (sharedLeftPos qid 3 qone oW nxyW "J" infosW).2
         ∈ (mkShared qid 3 qone oW nxyW einfoW emptyOut).2.nodes ∧
       OutNode.mk t.centre (sharedCentrePos 3 qone oW nxyW "J").1
           (sharedCentrePos 3 qone oW nxyW "J").2
         ∈ (mkShared qid 3 qone oW nxyW einfoW emptyOut).2.nodes ∧
       OutNode.mk t.right (sharedRightPos qid 3 qone oW nxyW "J" infosW).1
           (sharedRightPos qid 3 qone oW nxyW "J" infosW).2
         ∈ (mkShared qid 3 qone oW nxyW einfoW emptyOut).2.nodes) :=
  ⟨by decide, by decide,
   C6_junction_merge qid 3 qone oW nxyW einfoW emptyOut "J" infosW (by decide) (by decide)⟩

/-- Counterexample to C6 as stated: at a junction whose two unit contributions
are nearly antipodal — the magnitude of their sum lies strictly between
`1e-10` and `2e-10` — the code normalizes the mean (magnitude at most `1e-10`,
so the epsilon guard fires and the merged direction degenerates to `(0, 1)`),
while `normalize` of the plain sum takes the dividing branch; the materialized
left node has longitude `0`, the position claimed from the sum has a nonzero
longitude, so the claimed node is not among the materialized ones. -/
theorem C6_counterexample :
    ¬ mergedDirSumClaim Real.sqrt Real.pi Real.cos ((0 : ℝ), 0) (fun _ => ((0 : ℝ), 0))
      cexEinfo emptyOut := by
  intro h
  have hA : ((3 / 5 + vC.1) / 2) ^ 2 + ((4 / 5 + vC.2) / 2) ^ 2 ≤ ((1 : ℝ) / 10 ^ 10) ^ 2 := by
    simp only [vC, tC]
    norm_num
  have hB : ((1 : ℝ) / 10 ^ 10) ^ 2 < (3 / 5 + vC.1) ^ 2 + (4 / 5 + vC.2) ^ 2 := by
    simp only [vC, tC]
    norm_num
  have hC : (0 : ℝ) < 3 / 5 + vC.1 := by
    simp only [vC, tC]
    norm_num
  have hmean : Real.sqrt (((3 / 5 + vC.1) / 2) ^ 2 + ((4 / 5 + vC.2) / 2) ^ 2) ≤
      1 / 10 ^ 10 := by
    have hs := Real.sqrt_le_sqrt hA
    rwa [Real.sqrt_sq (by norm_num)] at hs
  have hsum : (1 : ℝ) / 10 ^ 10 < Real.sqrt ((3 / 5 + vC.1) ^ 2 + (4 / 5 + vC.2) ^ 2) := by
    have hs := Real.sqrt_lt_sqrt (by positivity) hB
    rwa [Real.sqrt_sq (by norm_num)] at hs
  have hh : (0 : ℝ) < Real.sqrt ((3 / 5 + vC.1) ^ 2 + (4 / 5 + vC.2) ^ 2) :=
    lt_trans (by norm_num) hsum
  have hargs1 : ((cexInfos.map (fun i => i.1)).sum / (cexInfos.length : ℝ)) =
      (3 / 5 + vC.1) / 2 := by
    simp [cexInfos]
  have hargs2 : ((cexInfos.map (fun i => i.2.1)).sum / (cexInfos.length : ℝ)) =
      (4 / 5 + vC.2) / 2 := by
    simp [cexInfos]
  have hdir : mergedDir Real.sqrt cexInfos = (0, 1) := by
    unfold mergedDir
    rw [hargs1, hargs2]
    exact normalize_of_not_gt _ _ _ hmean
  have hahw : mergedHW cexInfos = 11 / 4 := by
    simp [mergedHW, cexInfos]
  have hlon0 : (sharedLeftPos Real.sqrt Real.pi Real.cos ((0 : ℝ), 0)
      (fun _ => ((0 : ℝ), 0)) "C" cexInfos).2 = 0 := by
    simp [sharedLeftPos, hdir, xy_to_latlon]
  have hSX : ((cexInfos.map (fun i => i.1)).sum) = 3 / 5 + vC.1 := by
    simp [cexInfos]
  have hSY : ((cexInfos.map (fun i => i.2.1)).sum) = 4 / 5 + vC.2 := by
    simp [cexInfos]
  have hnorm : normalize Real.sqrt (3 / 5 + vC.1) (4 / 5 + vC.2) =
      ((3 / 5 + vC.1) / Real.sqrt ((3 / 5 + vC.1) ^ 2 + (4 / 5 + vC.2) ^ 2),
       (4 / 5 + vC.2) / Real.sqrt ((3 / 5 + vC.1) ^ 2 + (4 / 5 + vC.2) ^ 2)) :=
    normalize_of_gt _ _ _ hsum
  have hmem := h "C" cexInfos ⟨-1, -1 - 1, -1 - 1 - 1⟩ rfl (by norm_num [cexInfos]) rfl
  have hnodes : (mkShared Real.sqrt Real.pi Real.cos ((0 : ℝ), 0) (fun _ => ((0 : ℝ), 0))
      cexEinfo emptyOut).2.nodes =
      [⟨-1, (sharedLeftPos Real.sqrt Real.pi Real.cos ((0 : ℝ), 0)
          (fun _ => ((0 : ℝ), 0)) "C" cexInfos).1,
        (sharedLeftPos Real.sqrt Real.pi Real.cos ((0 : ℝ), 0)
          (fun _ => ((0 : ℝ), 0)) "C" cexInfos).2⟩,
       ⟨-1 - 1, (sharedCentrePos Real.pi Real.cos ((0 : ℝ), 0)
          (fun _ => ((0 : ℝ), 0)) "C").1,
        (sharedCentrePos Real.pi Real.cos ((0 : ℝ), 0)
          (fun _ => ((0 : ℝ), 0)) "C").2⟩,
       ⟨-1 - 1 - 1, (sharedRightPos Real.sqrt Real.pi Real.cos ((0 : ℝ), 0)
          (fun _ => ((0 : ℝ), 0)) "C" cexInfos).1,
        (sharedRightPos Real.sqrt Real.pi Real.cos ((0 : ℝ), 0)
          (fun _ => ((0 : ℝ), 0)) "C" cexInfos).2⟩] := rfl
  rw [hnodes, hSX, hSY, hnorm] at hmem
  have hP2 : ((0 : ℝ) + ((4 / 5 + vC.2) /
      Real.sqrt ((3 / 5 + vC.1) ^ 2 + (4 / 5 + vC.2) ^ 2)) * mergedHW cexInfos) =
      ((4 / 5 + vC.2) / Real.sqrt ((3 / 5 + vC.1) ^ 2 + (4 / 5 + vC.2) ^ 2)) *
        mergedHW cexInfos := by ring
  have hlonne : (xy_to_latlon Real.pi Real.cos
      ((0 : ℝ) + ((3 / 5 + vC.1) /
        Real.sqrt ((3 / 5 + vC.1) ^ 2 + (4 / 5 + vC.2) ^ 2)) * mergedHW cexInfos)
      ((0 : ℝ) + ((4 / 5 + vC.2) /
        Real.sqrt ((3 / 5 + vC.1) ^ 2 + (4 / 5 + vC.2) ^ 2)) * mergedHW cexInfos)
      0 0).2 ≠ 0 := by
    unfold xy_to_latlon
    simp only [zero_mul, zero_div, Real.cos_zero, mul_one, zero_add]
    rw [hahw]
    apply mul_ne_zero
    · apply div_ne_zero
      · exact mul_ne_zero (div_ne_zero (ne_of_gt hC) (ne_of_gt hh)) (by norm_num)
      · norm_num
    · exact div_ne_zero (by norm_num) Real.pi_ne_zero
  simp only [List.mem_cons, List.not_mem_nil, or_false] at hmem
  rcases hmem with h1 | h2 | h3
  · rw [OutNode.mk.injEq] at h1
    exact hlonne (h1.2.2.trans hlon0)
  · rw [OutNode.mk.injEq] at h2
    have : (-1 : ℤ) = -1 - 1 := h2.1
    norm_num at this
  · rw [OutNode.mk.injEq] at h3
    have : (-1 : ℤ) = -1 - 1 - 1 := h3.1
    norm_num at this

theorem boundary_node_preserve {α : Type} [LinearOrderedField α] (piA : α) (cosF : α → α)
    (o : α × α) (shared : List (String × Triple)) (pw : PWay α) (i : Nat) (side : Side)
    (st : OutDoc α) :
    (boundary_node piA cosF o shared pw i side st).2.ways = st.ways ∧
    (boundary_node piA cosF o shared pw i side st).2.rels = st.rels ∧
    (boundary_node piA cosF o shared pw i side st).2.nextW = st.nextW ∧
    (boundary_node piA cosF o shared pw i side st).2.nextR = st.nextR := by
  unfold boundary_node
  split
  · exact ⟨rfl, rfl, rfl, rfl⟩
  · cases side <;> exact ⟨rfl, rfl, rfl, rfl⟩

theorem stRun_boundary_state {α : Type} [LinearOrderedField α] (piA : α) (cosF : α → α)
    (o : α × α) (shared : List (String × Triple)) (pw : PWay α) (side : Side) :
    ∀ (l : List Nat) (st : OutDoc α),
      (stRun (fun i st => boundary_node piA cosF o shared pw i side st) l st).2.ways =
        st.ways ∧
      (stRun (fun i st => boundary_node piA cosF o shared pw i side st) l st).2.rels =
        st.rels ∧
      (stRun (fun i st => boundary_node piA cosF o shared pw i side st) l st).2.nextW =
        st.nextW ∧
      (stRun (fun i st => boundary_node piA cosF o shared pw i side st) l st).2.nextR =
        st.nextR := by
  intro l
  induction l with
  | nil => intro st; exact ⟨rfl, rfl, rfl, rfl⟩
  | cons hd tl ih =>
    intro st
    obtain ⟨w1, r1, nw1, nr1⟩ := boundary_node_preserve piA cosF o shared pw hd side st
    obtain ⟨w2, r2, nw2, nr2⟩ :=
      ih (boundary_node piA cosF o shared pw hd side st).2
    exact ⟨w2.trans w1, r2.trans r1, nw2.trans nw1, nr2.trans nr1⟩

/-! ## Claim C2 -/

/-- Claim C2: a oneway way yields exactly one relation, with exactly two
member ways in roles `left` and `right` and a `one_way=yes` tag (and exactly
two new boundary ways); a two-way way yields exactly two relations over four
new boundary ways, and the node-id sequence of the reverse lanelet's
left-boundary member way is the exact reverse of the centre-way sequence that
serves as the forward lanelet's right boundary. -/
theorem C2_lanelet_cardinality {α : Type} [LinearOrderedField α] (piA : α) (cosF : α → α)
    (o : α × α) (shared : List (String × Triple)) (pw : PWay α) (st : OutDoc α) :
    (pw.way.oneway = true →
      ∃ rel lw rw,
        (buildWay piA cosF o shared pw st).rels = st.rels ++ [rel] ∧
        (buildWay piA cosF o shared pw st).ways = st.ways ++ [lw, rw] ∧
        rel.members = [("way", lw.wid, "left"), ("way", rw.wid, "right")] ∧
        rel.members.length = 2 ∧
        ("one_way", "yes") ∈ rel.tags) ∧
    (pw.way.oneway = false →
      ∃ r1 r2 lw cw cw2 rw2,
        (buildWay piA cosF o shared pw st).rels = st.rels ++ [r1, r2] ∧
        (buildWay piA cosF o shared pw st).ways = st.ways ++ [lw, cw, cw2, rw2] ∧
        r1.members = [("way", lw.wid, "left"), ("way", cw.wid, "right")] ∧
        r2.members = [("way", cw2.wid, "left"), ("way", rw2.wid, "right")] ∧
        cw2.refs = cw.refs.reverse) := by
  constructor
  · intro how
    simp only [buildWay, how, if_true]
    obtain ⟨wA, rA, nwA, nrA⟩ := stRun_boundary_state piA cosF o shared pw Side.left
      (List.range pw.way.refs.length) st
    generalize hA : stRun (fun i st => boundary_node piA cosF o shared pw i Side.left st)
      (List.range pw.way.refs.length) st = A at *
    obtain ⟨wB, rB, nwB, nrB⟩ := stRun_boundary_state piA cosF o shared pw Side.right
      (List.range pw.way.refs.length) A.2
    generalize hB : stRun (fun i st => boundary_node piA cosF o shared pw i Side.right st)
      (List.range pw.way.refs.length) A.2 = B at *
    have h1 : (add_relation
        (add_way (add_way B.2 A.1 (solidTags pw.way)).2 B.1 (solidTags pw.way)).2
        [("way", (add_way B.2 A.1 (solidTags pw.way)).1, "left"),
         ("way", (add_way (add_way B.2 A.1 (solidTags pw.way)).2 B.1 (solidTags pw.way)).1,
           "right")]
        (relTags pw.way ++ [("one_way", "yes")])).2.rels =
        st.rels ++ [⟨st.nextR, [("way", st.nextW, "left"), ("way", st.nextW - 1, "right")],
          relTags pw.way ++ [("one_way", "yes")]⟩] := by
      simp only [add_relation, add_way]
      rw [rB, rA, nwB, nwA, nrB, nrA]
    have h2 : (add_relation
        (add_way (add_way B.2 A.1 (solidTags pw.way)).2 B.1 (solidTags pw.way)).2
        [("way", (add_way B.2 A.1 (solidTags pw.way)).1, "left"),
         ("way", (add_way (add_way B.2 A.1 (solidTags pw.way)).2 B.1 (solidTags pw.way)).1,
           "right")]
        (relTags pw.way ++ [("one_way", "yes")])).2.ways =
        st.ways ++ [⟨st.nextW, A.1, solidTags pw.way⟩, ⟨st.nextW - 1, B.1, solidTags pw.way⟩] := by
      simp only [add_relation, add_way]
      rw [wB, wA, nwB, nwA]
      simp only [List.append_assoc, List.singleton_append]
    exact ⟨_, _, _, h1, h2, rfl, rfl, by simp⟩
  · intro how
    simp only [buildWay, how, Bool.false_eq_true, if_false]
    obtain ⟨wA, rA, nwA, nrA⟩ := stRun_boundary_state piA cosF o shared pw Side.left
      (List.range pw.way.refs.length) st
    generalize hA : stRun (fun i st => boundary_node piA cosF o shared pw i Side.left st)
      (List.range pw.way.refs.length) st = A at *
    obtain ⟨wB, rB, nwB, nrB⟩ := stRun_boundary_state piA cosF o shared pw Side.centre
      (List.range pw.way.refs.length) A.2
    generalize hB : stRun (fun i st => boundary_node piA cosF o shared pw i Side.centre st)
      (List.range pw.way.refs.length) A.2 = B at *
    obtain ⟨wC, rC, nwC, nrC⟩ := stRun_boundary_state piA cosF o shared pw Side.right
      (List.range pw.way.refs.length) B.2
    generalize hC : stRun (fun i st => boundary_node piA cosF o shared pw i Side.right st)
      (List.range pw.way.refs.length) B.2 = C at *
    have h1 : ((add_relation
        (add_way
          (add_way
            (add_relation (add_way (add_way C.2 A.1 (solidTags pw.way)).2 B.1 dashedTags).2
              [("way", (add_way C.2 A.1 (solidTags pw.way)).1, "left"),
               ("way", (add_way (add_way C.2 A.1 (solidTags pw.way)).2 B.1 dashedTags).1,
                 "right")] (relTags pw.way)).2
            B.1.reverse dashedTags).2
          C.1.reverse (solidTags pw.way)).2
        [("way",
          (add_way
            (add_relation (add_way (add_way C.2 A.1 (solidTags pw.way)).2 B.1 dashedTags).2
              [("way", (add_way C.2 A.1 (solidTags pw.way)).1, "left"),
               ("way", (add_way (add_way C.2 A.1 (solidTags pw.way)).2 B.1 dashedTags).1,
                 "right")] (relTags pw.way)).2
            B.1.reverse dashedTags).1, "left"),
         ("way",
          (add_way
            (add_way
              (add_relation (add_way (add_way C.2 A.1 (solidTags pw.way)).2 B.1 dashedTags).2
                [("way", (add_way C.2 A.1 (solidTags pw.way)).1, "left"),
                 ("way", (add_way (add_way C.2 A.1 (solidTags pw.way)).2 B.1 dashedTags).1,
                   "right")] (relTags pw.way)).2
              B.1.reverse dashedTags).2
            C.1.reverse (solidTags pw.way)).1, "right")]
        (relTags pw.way)).2).rels =
        st.rels ++
          [⟨st.nextR, [("way", st.nextW, "left"), ("way", st.nextW - 1, "right")],
            relTags pw.way⟩,
           ⟨st.nextR - 1,
            [("way", st.nextW - 1 - 1, "left"), ("way", st.nextW - 1 - 1 - 1, "right")],
            relTags pw.way⟩] := by
      simp only [add_relation, add_way]
      rw [rC, rB, rA, nwC, nwB, nwA, nrC, nrB, nrA]
      simp only [List.append_assoc, List.singleton_append]
    have h2 : ((add_relation
        (add_way
          (add_way
            (add_relation (add_way (add_way C.2 A.1 (solidTags pw.way)).2 B.1 dashedTags).2
              [("way", (add_way C.2 A.1 (solidTags pw.way)).1, "left"),
               ("way", (add_way (add_way C.2 A.1 (solidTags pw.way)).2 B.1 dashedTags).1,
                 "right")] (relTags pw.way)).2
            B.1.reverse dashedTags).2
          C.1.reverse (solidTags pw.way)).2
        [("way",
          (add_way
            (add_relation (add_way (add_way C.2 A.1 (solidTags pw.way)).2 B.1 dashedTags).2
              [("way", (add_way C.2 A.1 (solidTags pw.way)).1, "left"),
               ("way", (add_way (add_way C.2 A.1 (solidTags pw.way)).2 B.1 dashedTags).1,
                 "right")] (relTags pw.way)).2
            B.1.reverse dashedTags).1, "left"),
         ("way",
          (add_way
            (add_way
              (add_relation (add_way (add_way C.2 A.1 (solidTags pw.way)).2 B.1 dashedTags).2
                [("way", (add_way C.2 A.1 (solidTags pw.way)).1, "left"),
                 ("way", (add_way (add_way C.2 A.1 (solidTags pw.way)).2 B.1 dashedTags).1,
                   "right")] (relTags pw.way)).2
              B.1.reverse dashedTags).2
            C.1.reverse (solidTags pw.way)).1, "right")]
        (relTags pw.way)).2).ways =
        st.ways ++
          [⟨st.nextW, A.1, solidTags pw.way⟩,
           ⟨st.nextW - 1, B.1, dashedTags⟩,
           ⟨st.nextW - 1 - 1, B.1.reverse, dashedTags⟩,
           ⟨st.nextW - 1 - 1 - 1, C.1.reverse, solidTags pw.way⟩] := by
      simp only [add_relation, add_way]
      rw [wC, wB, wA, nwC, nwB, nwA]
      simp only [List.append_assoc, List.singleton_append, List.cons_append, List.nil_append]
    exact ⟨_, _, _, _, _, _, h1, h2, rfl, rfl, rfl⟩

/-- Witness for C2 on a concrete oneway and a concrete two-way way over `ℚ`. -/
theorem C2_witness :
    pwOne.way.oneway = true ∧ pwTwo.way.oneway = false ∧
    (∃ rel lw rw,
        (buildWay 3 qone oW [] pwOne emptyOut).rels = (emptyOut : OutDoc ℚ).rels ++ [rel] ∧
        (buildWay 3 qone oW [] pwOne emptyOut).ways = (emptyOut : OutDoc ℚ).ways ++ [lw, rw] ∧
        rel.members = [("way", lw.wid, "left"), ("way", rw.wid, "right")] ∧
        rel.members.length = 2 ∧
        ("one_way", "yes") ∈ rel.tags) ∧
    (∃ r1 r2 lw cw cw2 rw2,
        (buildWay 3 qone oW [] pwTwo emptyOut).rels = (emptyOut : OutDoc ℚ).rels ++ [r1, r2] ∧
        (buildWay 3 qone oW [] pwTwo emptyOut).ways = (emptyOut : OutDoc ℚ).ways ++ [lw, cw, cw2, rw2] ∧
        r1.members = [("way", lw.wid, "left"), ("way", cw.wid, "right")] ∧
        r2.members = [("way", cw2.wid, "left"), ("way", rw2.wid, "right")] ∧
        cw2.refs = cw.refs.reverse) :=
  ⟨rfl, rfl,
   (C2_lanelet_cardinality 3 qone oW [] pwOne emptyOut).1 rfl,
   (C2_lanelet_cardinality 3 qone oW [] pwTwo emptyOut).2 rfl⟩

/-! ## Claim C3 -/

set_option maxHeartbeats 1000000

/-- Counterexample to C3 as stated: on the specification's own scenario-A
input the output contains four way elements, not three — the two-way
construction emits the reversed centre and reversed right sequences as new
ways instead of reusing the forward ones. -/
theorem C3_counterexample :
    (convert qid 3 qone docAQ).map (fun out => out.ways.length) = some 4 ∧ (4 : Nat) ≠ 3 :=
  ⟨rfl, by decide⟩

/-- Claim C3 (amended): for an input holding exactly one two-way residential
way over two source nodes `A` and `B` (any bounds, any coordinates), neither
`A` nor `B` becomes a junction (the shared registry stays empty), and the
output holds exactly 6 new nodes (left, centre, right at each end), exactly 4
new ways — left, centre, reversed centre, reversed right — and exactly 2 new
relations whose centre node ids appear in opposite orders (`[-3, -4]` as the
forward right boundary, `[-4, -3]` as the reverse left boundary). -/
theorem C3_scenarioA {α : Type} [LinearOrderedField α] (sqrt cosF : α → α)
    (piA b1 b2 b3 b4 la1 lo1 la2 lo2 : α) :
    ∃ out, convert sqrt piA cosF (scenarioA b1 b2 b3 b4 la1 lo1 la2 lo2) = some out ∧
      sharedOf sqrt piA cosF (scenarioA b1 b2 b3 b4 la1 lo1 la2 lo2)
        ((b1 + b3) / 2, (b2 + b4) / 2) = [] ∧
      out.nodes.map (fun nd => nd.nid) = [-1, -2, -3, -4, -5, -6] ∧
      out.ways.map (fun w => (w.wid, w.refs)) =
        [(-1, [-1, -2]), (-2, [-3, -4]), (-3, [-4, -3]), (-4, [-6, -5])] ∧
      out.rels.map (fun r => (r.rid, r.members)) =
        [(-1, [("way", -1, "left"), ("way", -2, "right")]),
         (-2, [("way", -3, "left"), ("way", -4, "right")])] := by
  have hcol : collectWays (scenarioA b1 b2 b3 b4 la1 lo1 la2 lo2) =
      [⟨"wA", "residential", ["A", "B"], false, "30", ""⟩] := rfl
  have hfil : List.filter (fun r =>
      (findNode (scenarioA b1 b2 b3 b4 la1 lo1 la2 lo2).nodes r).isSome) ["A", "B"] =
      ["A", "B"] := rfl
  refine ⟨_, rfl, ?_, ?_, ?_, ?_⟩ <;>
    simp [convert, convertFrom, sharedOf, sharedPair, initOut, enrichedWays, hcol,
      endpointInfo, wayEndpoints, addInfo, mkShared, buildWay, stRun, boundary_node,
      add_node, add_way, add_relation, lookupTriple, lookupInfos, enrich_way, hfil,
      Triple.get, List.range_succ]

/-! ## Claim C9 -/

/-- Claim C9: for an input holding exactly two oneway residential ways that
both end at source node `C` and share no other node, exactly one shared triple
(3 nodes, ids `-1, -2, -3`) is materialized for `C` and its left/right ids
(`-1` and `-3`) appear in both ways' boundary sequences at `C`; each way adds
2 fresh nodes at its other endpoint, for 7 new nodes in total, and exactly one
relation per way is emitted. -/
theorem C9_scenarioB {α : Type} [LinearOrderedField α] (sqrt cosF : α → α)
    (piA b1 b2 b3 b4 d1 d2 c1 c2 e1 e2 : α) :
    ∃ out, convert sqrt piA cosF (scenarioB b1 b2 b3 b4 d1 d2 c1 c2 e1 e2) = some out ∧
      sharedOf sqrt piA cosF (scenarioB b1 b2 b3 b4 d1 d2 c1 c2 e1 e2)
        ((b1 + b3) / 2, (b2 + b4) / 2) = [("C", ⟨-1, -2, -3⟩)] ∧
      out.nodes.map (fun nd => nd.nid) = [-1, -2, -3, -4, -5, -6, -7] ∧
      out.ways.map (fun w => (w.wid, w.refs)) =
        [(-1, [-4, -1]), (-2, [-5, -3]), (-3, [-6, -1]), (-4, [-7, -3])] ∧
      out.rels.map (fun r => (r.rid, r.members)) =
        [(-1, [("way", -1, "left"), ("way", -2, "right")]),
         (-2, [("way", -3, "left"), ("way", -4, "right")])] := by
  have hcol : collectWays (scenarioB b1 b2 b3 b4 d1 d2 c1 c2 e1 e2) =
      [⟨"wB1", "residential", ["D", "C"], true, "30", ""⟩,
       ⟨"wB2", "residential", ["E", "C"], true, "30", ""⟩] := rfl
  have hfil1 : List.filter (fun r =>
      (findNode (scenarioB b1 b2 b3 b4 d1 d2 c1 c2 e1 e2).nodes r).isSome) ["D", "C"] =
      ["D", "C"] := rfl
  have hfil2 : List.filter (fun r =>
      (findNode (scenarioB b1 b2 b3 b4 d1 d2 c1 c2 e1 e2).nodes r).isSome) ["E", "C"] =
      ["E", "C"] := rfl
  refine ⟨_, rfl, ?_, ?_, ?_, ?_⟩ <;>
    simp [convert, convertFrom, sharedOf, sharedPair, initOut, enrichedWays, hcol,
      endpointInfo, wayEndpoints, addInfo, mkShared, buildWay, stRun, boundary_node,
      add_node, add_way, add_relation, lookupTriple, lookupInfos, enrich_way,
      hfil1, hfil2, Triple.get, List.range_succ]

theorem buildWay_rels_tags {α : Type} [LinearOrderedField α] (piA : α) (cosF : α → α)
    (o : α × α) (shared : List (String × Triple)) (pw : PWay α) (st : OutDoc α) :
    ∀ r ∈ (buildWay piA cosF o shared pw st).rels,
      r ∈ st.rels ∨ r.tags = relTags pw.way ∨
        r.tags = relTags pw.way ++ [("one_way", "yes")] := by
  intro r hr
  by_cases how : pw.way.oneway = true
  · simp only [buildWay, how, if_true] at hr
    obtain ⟨wA, rA, nwA, nrA⟩ := stRun_boundary_state piA cosF o shared pw Side.left
      (List.range pw.way.refs.length) st
    generalize hA : stRun (fun i st => boundary_node piA cosF o shared pw i Side.left st)
      (List.range pw.way.refs.length) st = A at *
    obtain ⟨wB, rB, nwB, nrB⟩ := stRun_boundary_state piA cosF o shared pw Side.right
      (List.range pw.way.refs.length) A.2
    generalize hB : stRun (fun i st => boundary_node piA cosF o shared pw i Side.right st)
      (List.range pw.way.refs.length) A.2 = B at *
    simp only [add_relation, add_way] at hr
    rw [rB, rA] at hr
    rcases List.mem_append.mp hr with h1 | h1
    · exact Or.inl h1
    · right; right
      rw [List.mem_singleton.mp h1]
  · simp only [buildWay, how, if_false] at hr
    obtain ⟨wA, rA, nwA, nrA⟩ := stRun_boundary_state piA cosF o shared pw Side.left
      (List.range pw.way.refs.length) st
    generalize hA : stRun (fun i st => boundary_node piA cosF o shared pw i Side.left st)
      (List.range pw.way.refs.length) st = A at *
    obtain ⟨wB, rB, nwB, nrB⟩ := stRun_boundary_state piA cosF o shared pw Side.centre
      (List.range pw.way.refs.length) A.2
    generalize hB : stRun (fun i st => boundary_node piA cosF o shared pw i Side.centre st)
      (List.range pw.way.refs.length) A.2 = B at *
    obtain ⟨wC, rC, nwC, nrC⟩ := stRun_boundary_state piA cosF o shared pw Side.right
      (List.range pw.way.refs.length) B.2
    generalize hC : stRun (fun i st => boundary_node piA cosF o shared pw i Side.right st)
      (List.range pw.way.refs.length) B.2 = C at *
    simp only [add_relation, add_way] at hr
    rw [rC, rB, rA] at hr
    rcases List.mem_append.mp hr with h1 | h1
    · rcases List.mem_append.mp h1 with h2 | h2
      · exact Or.inl h2
      · right; left
        rw [List.mem_singleton.mp h2]
    · right; left
      rw [List.mem_singleton.mp h1]

theorem speed_limit_mem_relTags (w : HWay) :
    ("speed_limit", speedEmit w) ∈ relTags w := by
  unfold relTags
  simp

theorem default_speed_digits (s : String) :
    isdigitStr (rstripSet ((DEFAULT_SPEED s).getD "50") SUFFIX_CHARS) = true := by
  unfold DEFAULT_SPEED
  split <;> rfl

theorem tagGet_of_not_has (tags : List (String × String)) (k d : String)
    (h : tagHas tags k = false) : tagGet tags k d = d := by
  unfold tagHas at h
  unfold tagGet
  have : tags.filter (fun p => p.1 == k) = [] := by
    by_cases he : tags.filter (fun p => p.1 == k) = []
    · exact he
    · simp [he] at h
  rw [this]
  rfl

/-! ## Claim C4 -/

/-- Counterexample to C4 as stated: a way whose `maxspeed` is `"30 mph"`
passes the stripped digit check, so the original suffixed string — not a
numeric string — is emitted as the `speed_limit` tag value. -/
theorem C4_counterexample :
    (convert qid 3 qone docSpeedQ).map
      (fun out => out.rels.map (fun r => tagGet r.tags "speed_limit" "")) =
      some ["30 mph"] ∧
    isdigitStr "30 mph" = false :=
  ⟨rfl, rfl⟩

/-- Claim C4 (amended): every emitted lanelet relation carries a
`speed_limit` tag holding `speedEmit` of the way: the way's recorded speed
string when it is numeric after stripping the unit-suffix characters (the
original string is kept, so a unit suffix may survive — the value need not be
numeric as emitted, only numeric after stripping), else the category default
(`"50"` when the category has none); when the source way has no `maxspeed`
tag the collected speed is that same default; and the emitted value is always
numeric after stripping the unit-suffix characters. -/
theorem C4_speed_tagging {α : Type} [LinearOrderedField α] (piA : α) (cosF : α → α)
    (o : α × α) (shared : List (String × Triple)) (pw : PWay α) (st : OutDoc α)
    (nodes : List (InNode α)) (w : InWay) (hwrec : HWay) :
    (∀ r ∈ (buildWay piA cosF o shared pw st).rels,
        r ∈ st.rels ∨ ("speed_limit", speedEmit pw.way) ∈ r.tags) ∧
    isdigitStr (rstripSet (speedEmit pw.way) SUFFIX_CHARS) = true ∧
    (isdigitStr (rstripSet pw.way.speed SUFFIX_CHARS) = false →
      speedEmit pw.way = (DEFAULT_SPEED pw.way.highway).getD "50") ∧
    (collectOne nodes w = some hwrec → tagHas w.tags "maxspeed" = false →
      hwrec.speed = (DEFAULT_SPEED hwrec.highway).getD "50") := by
  refine ⟨?_, ?_, ?_, ?_⟩
  · intro r hr
    rcases buildWay_rels_tags piA cosF o shared pw st r hr with h | h | h
    · exact Or.inl h
    · exact Or.inr (h ▸ speed_limit_mem_relTags pw.way)
    · refine Or.inr (h ▸ ?_)
      exact List.mem_append_left _ (speed_limit_mem_relTags pw.way)
  · by_cases hdig : isdigitStr (rstripSet pw.way.speed SUFFIX_CHARS) = true
    · unfold speedEmit
      rw [if_pos hdig]
      exact hdig
    · unfold speedEmit
      rw [if_neg hdig]
      exact default_speed_digits pw.way.highway
  · intro h
    unfold speedEmit
    rw [if_neg]
    simp [h]
  · intro hsome hhas
    simp only [collectOne] at hsome
    split at hsome
    · exact absurd hsome (by simp)
    · split at hsome
      · exact absurd hsome (by simp)
      · simp only [Option.some.injEq] at hsome
        subst hsome
        simp only
        rw [tagGet_of_not_has w.tags "maxspeed" _ hhas]

/-- Witness for C4 on concrete rational data. -/
theorem C4_witness :
    (∀ r ∈ (buildWay 3 qone oW [] pwOne (emptyOut : OutDoc ℚ)).rels,
        r ∈ (emptyOut : OutDoc ℚ).rels ∨ ("speed_limit", speedEmit pwOne.way) ∈ r.tags) ∧
    isdigitStr (rstripSet (speedEmit pwOne.way) SUFFIX_CHARS) = true ∧
    (isdigitStr (rstripSet pwOne.way.speed SUFFIX_CHARS) = false →
      speedEmit pwOne.way = (DEFAULT_SPEED pwOne.way.highway).getD "50") ∧
    (collectOne docAQ.nodes wPlain = some hwPlain → tagHas wPlain.tags "maxspeed" = false →
      hwPlain.speed = (DEFAULT_SPEED hwPlain.highway).getD "50") ∧
    hwPlain.speed = (DEFAULT_SPEED hwPlain.highway).getD "50" :=
  ⟨(C4_speed_tagging 3 qone oW [] pwOne emptyOut docAQ.nodes wPlain hwPlain).1,
   (C4_speed_tagging 3 qone oW [] pwOne emptyOut docAQ.nodes wPlain hwPlain).2.1,
   (C4_speed_tagging 3 qone oW [] pwOne emptyOut docAQ.nodes wPlain hwPlain).2.2.1,
   (C4_speed_tagging 3 qone oW [] pwOne emptyOut docAQ.nodes wPlain hwPlain).2.2.2,
   (C4_speed_tagging 3 qone oW [] pwOne emptyOut docAQ.nodes wPlain hwPlain).2.2.2
     rfl rfl⟩

/-! ## Claim C7 -/

theorem collectOne_none_iff {α : Type} (nodes : List (InNode α)) (w : InWay) :
    collectOne nodes w = none ↔ eligible nodes w = false := by
  unfold collectOne eligible
  cases h1 : (HALF_WIDTHS (tagGet w.tags "highway" "")).isSome
  · simp [h1]
  · simp only [h1, Bool.true_and]
    by_cases h2 : (w.nds.filter (fun r => (findNode nodes r).isSome)).length < 2
    · simp [h2]
    · simp [h2]

theorem filterMap_filter_eq {β γ : Type} (f : β → Option γ) (p : β → Bool)
    (hfp : ∀ x, p x = false → f x = none) :
    ∀ l : List β, (l.filter p).filterMap f = l.filterMap f := by
  intro l
  induction l with
  | nil => rfl
  | cons hd tl ih =>
    cases hp : p hd
    · rw [List.filter_cons_of_neg (by simp [hp])]
      rw [List.filterMap_cons, hfp hd hp, ih]
    · rw [List.filter_cons_of_pos (by simp [hp])]
      rw [List.filterMap_cons, List.filterMap_cons, ih]

/-- Claim C7: ways with an unrecognized highway category or fewer than two
resolvable node references contribute nothing: dropping all of them from the
input leaves the entire output unchanged, ineligibility is exactly what the
collector rejects, and an input whose ways are all ineligible synthesizes no
nodes, no ways, no relations and no junction contributions at all. -/
theorem C7_category_filtering {α : Type} [LinearOrderedField α] (sqrt cosF : α → α)
    (piA : α) (doc : InDoc α) :
    convert sqrt piA cosF { doc with ways := doc.ways.filter (eligible doc.nodes) } =
      convert sqrt piA cosF doc ∧
    (∀ w, eligible doc.nodes w = false → collectOne doc.nodes w = none) ∧
    ((∀ w ∈ doc.ways, eligible doc.nodes w = false) →
      (∀ o, endpointInfo (enrichedWays sqrt piA cosF doc o) = []) ∧
      ∀ out, convert sqrt piA cosF doc = some out →
        out.nodes = [] ∧ out.ways = [] ∧ out.rels = []) := by
  have hcw : ∀ doc' : InDoc α,
      collectWays doc' = doc'.ways.filterMap (collectOne doc'.nodes) := fun _ => rfl
  have hcol : collectWays { doc with ways := doc.ways.filter (eligible doc.nodes) } =
      collectWays doc := by
    rw [hcw, hcw]
    exact filterMap_filter_eq (collectOne doc.nodes) (eligible doc.nodes)
      (fun x hx => (collectOne_none_iff doc.nodes x).mpr hx) doc.ways
  refine ⟨?_, ?_, ?_⟩
  · have horig : origin? { doc with ways := doc.ways.filter (eligible doc.nodes) } =
        origin? doc := rfl
    unfold convert
    simp only [convertFrom, sharedPair, sharedOf, enrichedWays, initOut, hcol, horig]
  · intro w hw
    exact (collectOne_none_iff doc.nodes w).mpr hw
  · intro hbad
    have hnil : collectWays doc = [] := by
      rw [hcw]
      rw [List.filterMap_eq_nil]
      exact fun w hw => (collectOne_none_iff doc.nodes w).mpr (hbad w hw)
    have hen : ∀ o : α × α, enrichedWays sqrt piA cosF doc o = [] := by
      intro o
      unfold enrichedWays
      rw [hnil]
      rfl
    refine ⟨fun o => by rw [hen o]; rfl, ?_⟩
    intro out hconv
    unfold convert at hconv
    cases horig : origin? doc with
    | none => rw [horig] at hconv; exact absurd hconv (by simp)
    | some o =>
      rw [horig] at hconv
      simp only [Option.some.injEq] at hconv
      subst hconv
      unfold convertFrom sharedPair
      rw [hen o]
      exact ⟨rfl, rfl, rfl⟩

/-- Witness for C7: the concrete all-ineligible input over `ℚ`. -/
theorem C7_witness :
    (∀ w ∈ docBadQ.ways, eligible docBadQ.nodes w = false) ∧
    ((∀ o, endpointInfo (enrichedWays qid 3 qone docBadQ o) = []) ∧
      ∀ out, convert qid 3 qone docBadQ = some out →
        out.nodes = [] ∧ out.ways = [] ∧ out.rels = []) :=
  ⟨by decide, (C7_category_filtering qid qone 3 docBadQ).2.2 (by decide)⟩

/-! ## Claim C5 -/

/-- Claim C5: for every latitude/longitude (with the projection origin fixed
and the cosine of the origin latitude nonzero, and the constant `π` parameter
nonzero), `xy_to_latlon` applied to `latlon_to_xy` recovers the input
exactly — hence within `1e-6` degrees — and, conversely, `latlon_to_xy`
applied to `xy_to_latlon` recovers any planar point: the two functions are
mutual inverses in exact arithmetic. -/
theorem C5_projection_roundtrip {α : Type} [LinearOrderedField α] (piA : α) (cosF : α → α)
    (lat lon olat olon x y : α) (hpi : piA ≠ 0) (hcos : cosF (olat * piA / 180) ≠ 0) :
    xy_to_latlon piA cosF (latlon_to_xy piA cosF lat lon olat olon).1
        (latlon_to_xy piA cosF lat lon olat olon).2 olat olon = (lat, lon) ∧
    |(xy_to_latlon piA cosF (latlon_to_xy piA cosF lat lon olat olon).1
        (latlon_to_xy piA cosF lat lon olat olon).2 olat olon).1 - lat| ≤ 1 / 10 ^ 6 ∧
    |(xy_to_latlon piA cosF (latlon_to_xy piA cosF lat lon olat olon).1
        (latlon_to_xy piA cosF lat lon olat olon).2 olat olon).2 - lon| ≤ 1 / 10 ^ 6 ∧
    latlon_to_xy piA cosF (xy_to_latlon piA cosF x y olat olon).1
        (xy_to_latlon piA cosF x y olat olon).2 olat olon = (x, y) := by
  have hfst : (xy_to_latlon piA cosF (latlon_to_xy piA cosF lat lon olat olon).1
      (latlon_to_xy piA cosF lat lon olat olon).2 olat olon).1 = lat := by
    unfold xy_to_latlon latlon_to_xy
    field_simp
    ring
  have hsnd : (xy_to_latlon piA cosF (latlon_to_xy piA cosF lat lon olat olon).1
      (latlon_to_xy piA cosF lat lon olat olon).2 olat olon).2 = lon := by
    unfold xy_to_latlon latlon_to_xy
    field_simp
    ring
  refine ⟨Prod.ext hfst hsnd, ?_, ?_, ?_⟩
  · rw [hfst, sub_self, abs_zero]
    positivity
  · rw [hsnd, sub_self, abs_zero]
    positivity
  · apply Prod.ext
    · show ((olon + x / (6371000 * cosF (olat * piA / 180)) * (180 / piA)) - olon) *
        piA / 180 * 6371000 * cosF (olat * piA / 180) = x
      field_simp
      ring
    · show ((olat + y / 6371000 * (180 / piA)) - olat) * piA / 180 * 6371000 = y
      field_simp
      ring

/-- Witness for C5 at a concrete rational instance. -/
theorem C5_witness :
    ((3 : ℚ) ≠ 0) ∧ (qone ((5 : ℚ) * 3 / 180) ≠ 0) ∧
    (xy_to_latlon 3 qone (latlon_to_xy 3 qone 1 2 5 6).1
        (latlon_to_xy 3 qone 1 2 5 6).2 5 6 = (1, 2) ∧
     |(xy_to_latlon 3 qone (latlon_to_xy 3 qone 1 2 5 6).1
        (latlon_to_xy 3 qone 1 2 5 6).2 5 6).1 - 1| ≤ 1 / 10 ^ 6 ∧
     |(xy_to_latlon 3 qone (latlon_to_xy 3 qone 1 2 5 6).1
        (latlon_to_xy 3 qone 1 2 5 6).2 5 6).2 - 2| ≤ 1 / 10 ^ 6 ∧
     latlon_to_xy 3 qone (xy_to_latlon 3 qone 7 8 5 6).1
        (xy_to_latlon 3 qone 7 8 5 6).2 5 6 = (7, 8)) :=
  ⟨by norm_num, by norm_num [qone],
   C5_projection_roundtrip 3 qone 1 2 5 6 7 8 (by norm_num) (by norm_num [qone])⟩

/-! ## Claim C8 -/

/-- Counterexample to C8 as stated: on the singleton coordinate sequence the
source raises `ZeroDivisionError` (no vector per position is returned), which
the embedding records as `none`. -/
theorem C8_counterexample :
    compute_perps qid [((0 : ℚ), 0)] = none := by
  decide

/-- Claim C8 (amended): for every coordinate sequence whose length is not 1
(conversion passes only sequences of length ≥ 2; a singleton makes the
direction-averaging step divide by zero and the source fails), `compute_perps`
returns exactly one vector per input position in order; under the defining
properties of `sqrt`, every returned vector is a unit vector; whenever a
vector's computed length is at or below the epsilon `1e-10`, `normalize`
falls back to `(0, 1)` (before the left rotation), and in the dividing branch
the divisor is provably nonzero. -/
theorem C8_perp_properties {α : Type} [LinearOrderedField α] (sqrt : α → α)
    (hsq : ∀ z : α, 0 ≤ z → sqrt z ^ 2 = z) :
    (∀ xs : List (α × α), xs.length ≠ 1 →
      ∃ ps, compute_perps sqrt xs = some ps ∧ ps.length = xs.length ∧
        ∀ p ∈ ps, p.1 ^ 2 + p.2 ^ 2 = 1) ∧
    (∀ dx dy : α, sqrt (dx ^ 2 + dy ^ 2) ≤ 1 / 10 ^ 10 → normalize sqrt dx dy = (0, 1)) ∧
    (∀ dx dy : α, 1 / 10 ^ 10 < sqrt (dx ^ 2 + dy ^ 2) → sqrt (dx ^ 2 + dy ^ 2) ≠ 0) := by
  refine ⟨?_, ?_, ?_⟩
  · intro xs hn
    have hiso : ∀ x ∈ (List.range xs.length).map (fun i => perpAt sqrt xs xs.length i),
        x.isSome := by
      intro x hx
      simp only [List.mem_map, List.mem_range] at hx
      obtain ⟨i, hi, rfl⟩ := hx
      exact perpAt_isSome sqrt xs i hn hi
    obtain ⟨ps, hps⟩ := allSome_isSome hiso
    refine ⟨ps, hps, ?_, ?_⟩
    · rw [allSome_length hps]
      simp
    · intro p hp
      have hmem := allSome_mem hps p hp
      simp only [List.mem_map, List.mem_range] at hmem
      obtain ⟨i, _, hpi⟩ := hmem
      obtain ⟨a, b, rfl⟩ := perpAt_some_shape sqrt xs xs.length i p hpi
      exact normalize_sq_one sqrt hsq a b
  · intro dx dy h
    exact normalize_of_not_gt sqrt dx dy h
  · intro dx dy h
    have : (0 : α) < 1 / 10 ^ 10 := by positivity
    exact ne_of_gt (this.trans h)

/-- Witness for C8 at `Real.sqrt` on a concrete two-point sequence. -/
theorem C8_witness :
    (([((0 : ℝ), 0), (3, 4)] : List (ℝ × ℝ)).length ≠ 1) ∧
    (∃ ps, compute_perps Real.sqrt [((0 : ℝ), 0), (3, 4)] = some ps ∧
      ps.length = 2 ∧ ∀ p ∈ ps, p.1 ^ 2 + p.2 ^ 2 = 1) := by
  have h := (C8_perp_properties Real.sqrt (fun z hz => Real.sq_sqrt hz)).1
    [((0 : ℝ), 0), (3, 4)] (by norm_num)
  exact ⟨by norm_num, h⟩

end OsmLanelet
